import Mathlib

/-!
Shallow embedding of the timeliner ingestion/storage engine
(package `timeliner`): the item processor (`storeItemFromService`,
`softMerge`, `shouldProcessExistingItem`, `insertOrUpdateItem`),
the content file manager (`canonicalItemDataFileName`,
`openUniqueCanonicalItemDataFile`, `replaceWithExisting`), the
operation drivers (`GetLatest`, `GetAll`, `Import`), checkpoints
(`prepareCheckpoint`, `successCleanup`) and the prune engine
(`doPrune`, `listItemsToDelete`, `deleteItem`).

Modelling conventions:
- The SQLite database is a `State` value: a list of item rows, a list
  of on-disk files (relative path and byte contents), a person-identity
  table, and the single account the client operates on.
- Machine integers (int64 row ids, unix timestamps) are `Int`.
- SHA-256 is kept abstract: functions that hash file contents take a
  `hash : List Nat → String` parameter standing for the base64-encoded
  SHA-256 of a byte sequence.  No property of `hash` is assumed unless
  stated in a theorem.
- Fallible Go paths return `Except String` results; functions whose Go
  originals can leave side effects behind before failing return the
  resulting `State` alongside the `Except` value.
- Concurrency (worker pool, per-item key locks) is modelled by the
  sequential worker loop `processItems`; the per-item lock makes the
  storage path of a single item atomic in the source, which is what the
  sequential model expresses.
-/

/-- Metadata blob of an item row (`Metadata` in the source).  Only the
`ServiceHash` field is read by the processor; the remaining fields are
collapsed into an opaque `payload` string.  The whole value models the
gob-encoded `metadata` column, which is NULL iff the value is `none`. -/
structure MetadataVal where
  serviceHash : Option String
  payload : String
deriving DecidableEq, Repr

/-- One row of the `items` table (struct `ItemRow` in the source).
`latitude`/`longitude` are REAL columns in SQLite; the processor only
copies them, so they are modelled as `Option Int`. -/
structure ItemRow where
  id : Int
  accountId : Int
  originalId : String
  personId : Int
  timestamp : Int
  stored : Int
  modified : Option Int
  classCode : Int
  mimeType : Option String
  dataText : Option String
  dataFile : Option String
  dataHash : Option String
  metadata : Option MetadataVal
  latitude : Option Int
  longitude : Option Int
deriving DecidableEq, Repr

/-- The all-zero `ItemRow` (Go zero value), used when no existing row
was loaded. -/
def emptyItemRow : ItemRow :=
  { id := 0, accountId := 0, originalId := "", personId := 0, timestamp := 0,
    stored := 0, modified := none, classCode := 0, mimeType := none,
    dataText := none, dataFile := none, dataHash := none, metadata := none,
    latitude := none, longitude := none }

/-- The decoded checkpoint wrapper stored on an account
(struct `checkpointWrapper`): the fingerprint of the command parameters
together with the adapter-opaque blob. -/
structure CheckpointWrapper where
  params : String
  data : List Nat
deriving DecidableEq, Repr

/-- An account row (struct `Account`).  `checkpoint` is the raw BLOB of
the `checkpoint` column (`[]` models NULL/empty); `cp` is that blob
decoded as a `checkpointWrapper`, as read by `prepareCheckpoint`. -/
structure Account where
  id : Int
  userId : String
  checkpoint : List Nat
  cp : Option CheckpointWrapper
  lastItemId : Option Int
deriving DecidableEq, Repr

/-- An incoming item produced by a data-source adapter (interface
`Item`).  `dataBytes` models `DataFileReader`: `none` means the item
has no data file; `some bs` is the byte stream the download produces.
`dataFileHash` models `DataFileHash` (a service-provided checksum). -/
structure Item where
  id : String
  timestamp : Int
  classCode : Int
  ownerId : Option String
  ownerName : Option String
  dataText : Option String
  dataFileName : Option String
  dataFileHash : Option String
  dataFileMime : Option String
  dataBytes : Option (List Nat)
  metaPayload : Option String
  latitude : Option Int
  longitude : Option Int
deriving DecidableEq, Repr

/-- Time bounds for a listing (struct `Timeframe`).  Times are unix
seconds; `none` is an unset (`nil`) pointer field. -/
structure Timeframe where
  since : Option Int
  untilT : Option Int
  sinceItemID : Option String
  untilItemID : Option String
deriving DecidableEq, Repr

/-- The all-`nil` timeframe. -/
def emptyTimeframe : Timeframe :=
  { since := none, untilT := none, sinceItemID := none, untilItemID := none }

/-- Merge options (struct `MergeOptions`, current version). -/
structure MergeOptions where
  softMerge : Bool
  preferNewID : Bool
  preferNewDataText : Bool
  preferNewDataFile : Bool
  preferNewMetadata : Bool
deriving DecidableEq, Repr

/-- Processing options (struct `ProcessingOptions`). -/
structure ProcessingOptions where
  reprocess : Bool
  prune : Bool
  integrity : Bool
  timeframe : Timeframe
  merge : MergeOptions
deriving DecidableEq, Repr

/-- Merge options with every flag off. -/
def defaultMergeOptions : MergeOptions :=
  { softMerge := false, preferNewID := false, preferNewDataText := false,
    preferNewDataFile := false, preferNewMetadata := false }

/-- Processing options with every flag off and an empty timeframe. -/
def defaultProcessingOptions : ProcessingOptions :=
  { reprocess := false, prune := false, integrity := false,
    timeframe := emptyTimeframe, merge := defaultMergeOptions }

/-- The whole observable state of one client run: the `items` table,
the on-disk data files (relative path, contents), the person-identity
table for this data source (user id to person row id), the row-id
counters, the account row (`wc.acc`), the data source id (`wc.ds.ID`),
the run clock (`time.Now`), the per-run latest-item tracker
(`wc.lastItemRowID` / `wc.lastItemTimestamp`, where `none` is the zero
time), and the presence (cuckoo) filter contents when prune is on. -/
structure State where
  items : List ItemRow
  files : List (String × List Nat)
  persons : List (String × Int)
  nextRowId : Int
  nextPersonId : Int
  account : Account
  dsId : String
  now : Int
  runLastRowId : Int
  runLastTs : Option Int
  filterIds : Option (List String)
deriving DecidableEq, Repr

/-! Path and filename helpers of the content file manager. -/

/-- Character class kept by `safePathRE` (`[^\w.-]` is removed): ASCII
word characters, dot and dash. -/
def isSafePathChar (c : Char) : Bool :=
  c.isAlphanum || c == '_' || c == '.' || c == '-'

/-- One left-to-right pass replacing every non-overlapping `..` pair by
nothing, as `strings.Replace(s, "..", "", -1)` does. -/
def removeDotDotPairs : List Char → List Char
  | '.' :: '.' :: rest => removeDotDotPairs rest
  | c :: rest => c :: removeDotDotPairs rest
  | [] => []

/-- Function `safePathComponent`: strip unsafe characters, strip `..`
pairs, and map a bare `.` to the empty string. -/
def safePathComponent (s : String) : String :=
  let s1 := String.mk (removeDotDotPairs (s.data.filter isSafePathChar))
  if s1 == "." then "" else s1

/-- Extension of a slash-separated path as `path.Ext` computes it: the
suffix starting at the final dot of the final path element, or empty.
The argument is the path reversed as a character list; the accumulator
collects the extension characters in forward order. -/
def pathExtRev : List Char → List Char → String
  | [], _ => ""
  | c :: rest, acc =>
    if c == '/' then ""
    else if c == '.' then String.mk ('.' :: acc)
    else pathExtRev rest (c :: acc)

/-- Go `path.Ext`. -/
def pathExt (s : String) : String := pathExtRev s.data.reverse []

/-- String suffix test on the character lists (Go `strings.HasSuffix`;
`String.endsWith` itself does not reduce definitionally). -/
def strEndsWith (s suf : String) : Bool :=
  suf.data.isSuffixOf s.data

/-- Go `strings.TrimSuffix`. -/
def trimSuffix (s suf : String) : String :=
  if strEndsWith s suf then s.dropRight suf.length else s

/-- Two-digit zero padding (`%02d`). -/
def pad2 (n : Int) : String :=
  if n < 10 then "0" ++ toString n else toString n

/-- Four-digit zero padding (`%04d`). -/
def pad4 (n : Int) : String :=
  if n < 10 then "000" ++ toString n
  else if n < 100 then "00" ++ toString n
  else if n < 1000 then "0" ++ toString n
  else toString n

/-- Proleptic-Gregorian (year, month, day) of a day count since the
unix epoch, the civil-from-days algorithm used by time libraries.  All
modelled timestamps are nonnegative, where `Int` division agrees with
the algorithm's floor division. -/
def civilFromDays (z0 : Int) : Int × Int × Int :=
  let z := z0 + 719468
  let era := z / 146097
  let doe := z - era * 146097
  let yoe := (doe - doe / 1460 + doe / 36524 - doe / 146096) / 365
  let y := yoe + era * 400
  let doy := doe - (365 * yoe + yoe / 4 - yoe / 100)
  let mp := (5 * doy + 2) / 153
  let d := doy - (153 * mp + 2) / 5 + 1
  let m := if mp < 10 then mp + 3 else mp - 9
  (if m <= 2 then y + 1 else y, m, d)

/-- Timestamp formatted with Go layout `2006_01_02_150405` (UTC). -/
def tsFileName (ts : Int) : String :=
  let ymd := civilFromDays (ts / 86400)
  let secs := ts % 86400
  pad4 ymd.1 ++ "_" ++ pad2 ymd.2.1 ++ "_" ++ pad2 ymd.2.2 ++ "_" ++
    pad2 (secs / 3600) ++ pad2 ((secs % 3600) / 60) ++ pad2 (secs % 60)

/-- Function `ensureDataFileNameShortEnough`: cap at 250 characters,
preserving the extension (itself capped at 20). -/
def ensureDataFileNameShortEnough (filename : String) : String :=
  if filename.length > 250 then
    let ext0 := pathExt filename
    let ext := if ext0.length > 20 then ext0.take 20 else ext0
    (filename.take (250 - ext.length)) ++ ext
  else filename

/-- Function `canonicalItemDataFileName`: preference order is the
sanitized adapter filename, then `item_<original id>`, then the
formatted timestamp (unix second 0 models the zero time), then a random
string.  `randomString(24, false)` is nondeterministic; the model uses
a fixed 24-character placeholder, which no claim depends on. -/
def canonicalItemDataFileName (it : Item) : String :=
  let f1 := match it.dataFileName with
    | some f => safePathComponent f
    | none => ""
  let f2 := if f1 == "" then (if it.id != "" then "item_" ++ it.id else "") else f1
  let f3 := if f2 == "" && it.timestamp != 0 then tsFileName it.timestamp else f2
  let f4 := if f3 == "" then "xxxxxxxxxxxxxxxxxxxxxxxx" else f3
  ensureDataFileNameShortEnough f4

/-- Function `canonicalItemDataFileDir`:
`data/<year>/<month>/<sanitized source id>`, with the run clock
substituted for a zero timestamp. -/
def canonicalItemDataFileDir (st : State) (it : Item) : String :=
  let ts := if it.timestamp == 0 then st.now else it.timestamp
  let ds := if st.dsId == "" then "unknown_service" else st.dsId
  let ymd := civilFromDays (ts / 86400)
  "data/" ++ pad4 ymd.1 ++ "/" ++ pad2 ymd.2.1 ++ "/" ++ safePathComponent ds

/-! Disk primitives. -/

/-- Whether a file exists at the given relative path. -/
def fileExists (files : List (String × List Nat)) (p : String) : Bool :=
  files.any (fun f => f.1 == p)

/-- Contents of the file at a path, if it exists (`os.Open` + read). -/
def lookupFile (st : State) (p : String) : Option (List Nat) :=
  (st.files.filter (fun f => f.1 == p)).head?.map (fun f => f.2)

/-- Create an empty file (`os.OpenFile` with `O_CREATE|O_EXCL`). -/
def createFile (st : State) (p : String) : State :=
  { st with files := st.files ++ [(p, [])] }

/-- Overwrite the contents of a file (`io.Copy` into the open file). -/
def writeFile (st : State) (p : String) (bs : List Nat) : State :=
  { st with files := st.files.map (fun f => if f.1 == p then (p, bs) else f) }

/-- Delete a file if present (`os.Remove`, `IsNotExist` tolerated). -/
def removeFileIfExists (st : State) (p : String) : State :=
  { st with files := st.files.filter (fun f => f.1 != p) }

/-- Rename `src` over `dst` if `src` exists (`os.Rename`, `IsNotExist`
tolerated); the destination is replaced. -/
def renameFileIfExists (st : State) (src dst : String) : State :=
  match lookupFile st src with
  | none => st
  | some bs =>
    { st with files := (st.files.filter (fun f => f.1 != src && f.1 != dst)) ++ [(dst, bs)] }

/-- Search loop of `openUniqueCanonicalItemDataFile`: up to 100
attempts, appending `_<n>` before the extension while the candidate
path exists on disk. -/
def openUniqueLoop (files : List (String × List Nat)) (tryPath lastAppend : String) :
    Nat → Nat → Except String String
  | _, 0 => .error ("unable to find available filename for item: " ++ tryPath)
  | i, fuel + 1 =>
    if fileExists files tryPath then
      let ext := pathExt tryPath
      let base := trimSuffix tryPath lastAppend
      let la := "_" ++ toString (i + 1) ++ ext
      openUniqueLoop files (base ++ la) la (i + 1) fuel
    else .ok tryPath

/-- Function `openUniqueCanonicalItemDataFile`: build the canonical
path, find an unused name, and create the (empty) file. -/
def openUniqueCanonicalItemDataFile (st : State) (it : Item) :
    Except String (State × String) :=
  let dir := canonicalItemDataFileDir st it
  let tryPath := dir ++ "/" ++ canonicalItemDataFileName it
  match openUniqueLoop st.files tryPath (pathExt tryPath) 0 100 with
  | .error e => .error e
  | .ok p => .ok (createFile st p, p)

/-! Database primitives over the `items` table. -/

/-- Function `loadItemRow`: the row with the given account id and
original id (`LIMIT 1`), or `none` (`sql.ErrNoRows` maps to the zero
row in the source, whose `ID` is then 0). -/
def loadItemRow (items : List ItemRow) (accountId : Int) (originalId : String) :
    Option ItemRow :=
  (items.filter (fun r => r.accountId == accountId && r.originalId == originalId)).head?

/-- The `UPDATE items SET original_id=? WHERE id=?` statement issued by
`softMerge`, subject to the schema's `UNIQUE (original_id, account_id)`
constraint; on a constraint violation the statement fails and changes
nothing. -/
def updateOriginalId (st : State) (rowId : Int) (newId : String) :
    Except String State :=
  match (st.items.filter (fun r => r.id == rowId)).head? with
  | none => .ok st
  | some target =>
    if st.items.any (fun r => r.id != rowId && r.accountId == target.accountId &&
        r.originalId == newId) then
      .error ("UNIQUE constraint failed: items.original_id, items.account_id")
    else
      .ok { st with items := st.items.map (fun r =>
              if r.id == rowId then { r with originalId := newId } else r) }

/-- The `UPDATE items SET data_hash=? WHERE id=?` statement at the end
of `storeItemFromService`. -/
def updateDataHash (st : State) (rowId : Int) (h : String) : State :=
  { st with items := st.items.map (fun r =>
      if r.id == rowId then { r with dataHash := some h } else r) }

/-- ASCII lowercasing, matching SQLite's ASCII-only `NOCASE` collation
and default `LIKE` case folding. -/
def asciiLower (s : String) : String := String.mk (s.data.map Char.toLower)

/-- SQL `data_text = ?` on a `COLLATE NOCASE` column: NULL on either
side never matches; otherwise ASCII-case-insensitive equality. -/
def optTextEq (a b : Option String) : Bool :=
  match a, b with
  | some x, some y => asciiLower x == asciiLower y
  | _, _ => false

/-- SQL `data_file LIKE '%/<name>'`: NULL never matches; otherwise a
case-insensitive suffix test. -/
def optFileLike (rowDataFile dataFileName : Option String) : Bool :=
  match rowDataFile, dataFileName with
  | some df, some n => strEndsWith (asciiLower df) (asciiLower ("/" ++ n))
  | _, _ => false

/-- SQL `data_hash = ?`: NULL never matches; otherwise equality of the
service-provided checksum with the stored one.  (The source binds the
raw `[]byte` checksum against the TEXT column; the model compares the
two values directly.) -/
def optHashEq (a b : Option String) : Bool :=
  match a, b with
  | some x, some y => x == y
  | _, _ => false

/-- Candidate rows of the `softMerge` query: same account, equal
timestamp, matching text or file name or service hash, and a differing
original id. -/
def softMergeCandidates (st : State) (it : Item) : List ItemRow :=
  st.items.filter (fun r =>
    r.accountId == st.account.id &&
    r.timestamp == it.timestamp &&
    (optTextEq r.dataText it.dataText ||
     optFileLike r.dataFile it.dataFileName ||
     optHashEq r.dataHash it.dataFileHash) &&
    r.originalId != it.id)

/-- Function `softMerge`: resolve at most one candidate row.  With no
candidate, proceed under the item's own id without merging.  With
exactly one: either adopt the existing row's id, or rewrite the
existing row's id to the incoming one (an UPDATE that the uniqueness
constraint can reject).  With more than one, fail (ambiguous).  The
returned triple is (state, id to process under, doing-soft-merge). -/
def softMerge (st : State) (it : Item) (po : ProcessingOptions) :
    Except String (State × String × Bool) :=
  let newOriginalID := it.id
  match softMergeCandidates st it with
  | [] => .ok (st, newOriginalID, false)
  | [r] =>
    if !po.merge.preferNewID then .ok (st, r.originalId, true)
    else
      match updateOriginalId st r.id newOriginalID with
      | .ok st1 => .ok (st1, newOriginalID, true)
      | .error e => .error e
  | _ :: _ :: _ =>
    .error ("ambiguous match with existing items - unable to merge, skipping item with ID: " ++ newOriginalID)

/-- Integrity sub-check of `shouldProcessExistingItem`: with a recorded
data file and hash, reprocess when the file cannot be opened or its
current bytes re-hash differently.  `false` when the row has no file or
no hash (the branch is then skipped). -/
def integrityMismatch (hash : List Nat → String) (st : State) (dbItem : ItemRow) : Bool :=
  match dbItem.dataFile, dbItem.dataHash with
  | some df, some dh =>
    match lookupFile st df with
    | none => true
    | some contents => hash contents != dh
  | _, _ => false

/-- Etag sub-check of `shouldProcessExistingItem`: the service reports
a hash and it differs from the stored `Metadata.ServiceHash`. -/
def serviceHashChanged (it : Item) (dbItem : ItemRow) : Bool :=
  match it.dataFileHash, dbItem.metadata with
  | some sh, some md =>
    match md.serviceHash with
    | some old => sh != old
    | none => false
  | _, _ => false

/-- Function `shouldProcessExistingItem`, with the source's branch
order: integrity mismatch forces reprocessing first; a locally modified
row is then left alone; a file recorded without a hash (interrupted
download) is reprocessed; a changed service hash is reprocessed;
otherwise reprocess only on request or during a soft merge. -/
def shouldProcessExistingItem (hash : List Nat → String) (st : State) (it : Item)
    (dbItem : ItemRow) (doingSoftMerge : Bool) (po : ProcessingOptions) : Bool :=
  if po.integrity && integrityMismatch hash st dbItem then true
  else if dbItem.modified.isSome then false
  else if dbItem.dataFile.isSome && dbItem.dataHash.isNone then true
  else if serviceHashChanged it dbItem then true
  else po.reprocess || doingSoftMerge

/-- Function `getPerson` restricted to the client's data source: return
the person row id mapped to the owner's user id, creating a fresh
person (and identity) on first sight. -/
def getPerson (st : State) (userId : String) : State × Int :=
  match st.persons.lookup userId with
  | some pid => (st, pid)
  | none =>
    ({ st with persons := st.persons ++ [(userId, st.nextPersonId)],
               nextPersonId := st.nextPersonId + 1 },
     st.nextPersonId)

/-- Function `fillItemRow`: unpack the item into row values on top of
the loaded row `ir`.  The owner defaults to the account's user id; the
service hash is folded into the metadata value exactly when the item
reports one and has a metadata value (with a `nil` metadata and a
non-nil service hash the source would dereference a nil pointer; the
model keeps `none`).  `dataHash` and `modified` are not assigned. -/
def fillItemRow (st : State) (ir : ItemRow) (it : Item) (itemOriginalID : String)
    (timestamp : Int) (canonicalDataFileName : Option String) : State × ItemRow :=
  let ownerId := it.ownerId.getD st.account.userId
  let stPid := getPerson st ownerId
  let md0 : Option MetadataVal := it.metaPayload.map (fun p => { serviceHash := none, payload := p })
  let md : Option MetadataVal :=
    match it.dataFileHash with
    | some h => md0.map (fun m => { m with serviceHash := some h })
    | none => md0
  (stPid.1,
   { ir with
       accountId := st.account.id
       originalId := itemOriginalID
       personId := stPid.2
       timestamp := it.timestamp
       stored := timestamp
       classCode := it.classCode
       mimeType := it.dataFileMime
       dataText := it.dataText
       dataFile := canonicalDataFileName
       metadata := md
       latitude := it.latitude
       longitude := it.longitude })

/-- SQL `COALESCE(field, ?)`: keep the existing value, fill in the new
one only where the existing is NULL. -/
def coalesceOldNew {α : Type} (oldV newV : Option α) : Option α :=
  match oldV with
  | some v => some v
  | none => newV

/-- SQL `COALESCE(?, field)`: take the new value, fall back to the
existing one where the new is NULL. -/
def coalesceNewOld {α : Type} (oldV newV : Option α) : Option α :=
  match newV with
  | some v => some v
  | none => oldV

/-- The row produced by the `ON CONFLICT ... DO UPDATE` clause of
`insertOrUpdateItem`.  In replace mode every listed column takes the
incoming value.  In soft-merge mode nullable columns merge additively
(`COALESCE(field, ?)`, flipped for fields marked prefer-new), and the
NOT-NULL columns `person_id`, `timestamp`, `class` keep the existing
value; `stored` always takes the new value.  `id`, `account_id`,
`original_id` and `modified` are not in the update list. -/
def mergedRow (old ir : ItemRow) (softM : Bool) (po : ProcessingOptions) : ItemRow :=
  if softM then
    { old with
        stored := ir.stored
        mimeType := coalesceOldNew old.mimeType ir.mimeType
        dataText := if po.merge.preferNewDataText
          then coalesceNewOld old.dataText ir.dataText
          else coalesceOldNew old.dataText ir.dataText
        dataFile := coalesceOldNew old.dataFile ir.dataFile
        dataHash := coalesceOldNew old.dataHash ir.dataHash
        metadata := if po.merge.preferNewMetadata
          then coalesceNewOld old.metadata ir.metadata
          else coalesceOldNew old.metadata ir.metadata
        latitude := coalesceOldNew old.latitude ir.latitude
        longitude := coalesceOldNew old.longitude ir.longitude }
  else
    { ir with id := old.id, modified := old.modified }

/-- Function `insertOrUpdateItem`: upsert keyed on
`(account_id, original_id)`.  A fresh insert takes the next row id and
a NULL `modified`; a conflict updates the existing row via
`mergedRow`. -/
def insertOrUpdateItem (st : State) (ir : ItemRow) (softM : Bool)
    (po : ProcessingOptions) : State :=
  if st.items.any (fun r => r.accountId == ir.accountId && r.originalId == ir.originalId) then
    { st with items := st.items.map (fun r =>
        if r.accountId == ir.accountId && r.originalId == ir.originalId
        then mergedRow r ir softM po else r) }
  else
    { st with
        items := st.items ++ [{ ir with id := st.nextRowId, modified := none }],
        nextRowId := st.nextRowId + 1 }

/-- Function `replaceWithExisting`: after a successful download and
hash, look for another row with the same `data_hash`.  If none, keep
the new file.  If one exists, re-hash its recorded file: on a match,
delete the newly downloaded copy; on a mismatch, rename the new file
over the recorded path (restoring it) and then fail while removing the
already renamed-away path.  The source ends with
`canonical = existingDatafile`, an assignment to the local pointer
variable with no effect on the caller or the database; accordingly the
model leaves the item rows untouched. -/
def replaceWithExisting (hash : List Nat → String) (st : State)
    (canonical : Option String) (checksumBase64 : String) (itemRowID : Int) :
    State × Except String Unit :=
  match canonical with
  | none => (st, .error ("missing data filename and/or hash of contents"))
  | some canonicalName =>
    if canonicalName == "" || checksumBase64 == "" then
      (st, .error ("missing data filename and/or hash of contents"))
    else
      match (st.items.filter (fun r => r.dataHash == some checksumBase64 &&
          r.id != itemRowID)).head? with
      | none => (st, .ok ())
      | some r =>
        match r.dataFile with
        | none => (st, .error ("item with matching hash is missing data file name; hash: " ++ checksumBase64))
        | some existingDatafile =>
          match lookupFile st existingDatafile with
          | none => (st, .error ("opening existing file"))
          | some contents =>
            let b64ExistingFileHash := hash contents
            let st1 := if checksumBase64 != b64ExistingFileHash
              then renameFileIfExists st canonicalName existingDatafile
              else st
            if fileExists st1.files canonicalName then
              (removeFileIfExists st1 canonicalName, .ok ())
            else
              (st1, .error ("removing duplicate data file"))

/-- Tail of `storeItemFromService` after the data file is opened (or
skipped): fill and upsert the row, read the row id back, then — when a
data file is being processed — download (write the bytes), deduplicate
via `replaceWithExisting`, and record the hash. -/
def storeItemWrite (hash : List Nat → String) (st : State) (it : Item)
    (ir0 : ItemRow) (itemOriginalID : String) (processDataFile : Bool)
    (timestamp : Int) (doingSoftMerge : Bool) (po : ProcessingOptions)
    (dataFileName : Option String) : State × Except String Int :=
  let filled := fillItemRow st ir0 it itemOriginalID timestamp dataFileName
  let st2 := filled.1
  let ir := filled.2
  let st3 := insertOrUpdateItem st2 ir doingSoftMerge po
  let itemRowID : Int :=
    match loadItemRow st3.items ir.accountId ir.originalId with
    | some r => r.id
    | none => 0
  if processDataFile then
    match dataFileName with
    | none => (st3, .ok itemRowID)
    | some name =>
      let bs := it.dataBytes.getD []
      let st4 := writeFile st3 name bs
      let b64hash := hash bs
      match replaceWithExisting hash st4 (some name) b64hash itemRowID with
      | (st5, .error e) =>
        (st5, .error ("replacing data file with identical existing file: " ++ e))
      | (st5, .ok _) => (updateDataHash st5 itemRowID b64hash, .ok itemRowID)
  else (st3, .ok itemRowID)

/-- Tail of `storeItemFromService` after the existence check: open a
unique data file when one is being processed, then `storeItemWrite`. -/
def storeItemRest (hash : List Nat → String) (st : State) (it : Item)
    (ir0 : ItemRow) (itemOriginalID : String) (processDataFile : Bool)
    (timestamp : Int) (doingSoftMerge : Bool) (po : ProcessingOptions) :
    State × Except String Int :=
  if processDataFile then
    match openUniqueCanonicalItemDataFile st it with
    | .error e => (st, .error ("opening output data file: " ++ e))
    | .ok (st1, name) =>
      storeItemWrite hash st1 it ir0 itemOriginalID processDataFile timestamp
        doingSoftMerge po (some name)
  else
    storeItemWrite hash st it ir0 itemOriginalID processDataFile timestamp
      doingSoftMerge po none

/-- Function `storeItemFromService` (current version, with processing
options): soft-merge resolution, the existence check with
`shouldProcessExistingItem`, the data-file decision, the temporary
`.bak` staging of an existing data file (restored on failure, removed
on success), then `storeItemRest`.  In the source a nil item returns
id 0; the model's callers always pass an item.  When an existing row is
found with a nil `DataFile` while `processDataFile` holds, the source
dereferences the nil pointer; the model returns an error. -/
def storeItemFromService (hash : List Nat → String) (st : State) (it : Item)
    (timestamp : Int) (po : ProcessingOptions) : State × Except String Int :=
  let smRes : Except String (State × String × Bool) :=
    if po.merge.softMerge then softMerge st it po else .ok (st, it.id, false)
  match smRes with
  | .error e => (st, .error ("soft merge: " ++ e))
  | .ok (st1, itemOriginalID, doingSoftMerge) =>
    let processDataFile0 := it.dataBytes.isSome
    match (if itemOriginalID != "" then loadItemRow st1.items st1.account.id itemOriginalID else none) with
    | none =>
      storeItemRest hash st1 it emptyItemRow itemOriginalID processDataFile0
        timestamp doingSoftMerge po
    | some ir =>
      if !(shouldProcessExistingItem hash st1 it ir doingSoftMerge po) then
        (st1, .ok ir.id)
      else
        let processDataFile := processDataFile0 &&
          (ir.dataFile.isNone || !doingSoftMerge || po.merge.preferNewDataFile)
        if processDataFile then
          match ir.dataFile with
          | none => (st1, .error ("runtime panic: invalid memory address or nil pointer dereference"))
          | some origFile =>
            let bakFile := origFile ++ ".bak"
            let st2 := renameFileIfExists st1 origFile bakFile
            match storeItemRest hash st2 it ir itemOriginalID processDataFile
                timestamp doingSoftMerge po with
            | (st3, .ok rid) => (removeFileIfExists st3 bakFile, .ok rid)
            | (st3, .error e) => (renameFileIfExists st3 bakFile origFile, .error e)
        else
          storeItemRest hash st1 it ir itemOriginalID processDataFile
            timestamp doingSoftMerge po

/-- Insert an id into the presence (cuckoo) filter when one is carried
by the run (`InsertUnique`: no duplicates). -/
def insertFilterId (st : State) (id : String) : State :=
  match st.filterIds with
  | none => st
  | some l => { st with filterIds := some (if l.contains id then l else l ++ [id]) }

/-- Function `processSingleItemGraphNode`: record the item's id in the
presence filter, store the item, then track the row id of the item with
the greatest timestamp seen during this run. -/
def processSingleItemGraphNode (hash : List Nat → String) (st : State) (it : Item)
    (po : ProcessingOptions) : State × Except String Int :=
  let st0 := if it.id != "" then insertFilterId st it.id else st
  match storeItemFromService hash st0 it st0.now po with
  | (st1, .error e) => (st1, .error e)
  | (st1, .ok rowId) =>
    let upd := match st1.runLastTs with
      | none => true
      | some t => t < it.timestamp
    if upd then
      ({ st1 with runLastRowId := rowId, runLastTs := some it.timestamp }, .ok rowId)
    else (st1, .ok rowId)

/-- The worker loop of `beginProcessing`: process each single-node item
graph in turn; an error on one item is logged and processing
continues. -/
def processItems (hash : List Nat → String) (st : State) (its : List Item)
    (po : ProcessingOptions) : State :=
  match its with
  | [] => st
  | it :: rest => processItems hash (processSingleItemGraphNode hash st it po).1 rest po

/-! Checkpoints and the operation drivers. -/

/-- Rendering of an `Option Int` field the way `fmt.Sprintf("%s", p)`
prints a nil or non-nil `*time.Time`. -/
def optIntStr : Option Int → String
  | none => "<nil>"
  | some t => toString t

/-- Method `Timeframe.String`, the operation-parameter fingerprint
stored with checkpoints. -/
def Timeframe.render (tf : Timeframe) : String :=
  "\x7bSince:" ++ optIntStr tf.since ++ " Until:" ++ optIntStr tf.untilT ++
    " SinceItemID:" ++ tf.sinceItemID.getD ("") ++
    " UntilItemID:" ++ tf.untilItemID.getD ("") ++ "\x7d"

/-- Method `prepareCheckpoint`: return the stored checkpoint blob only
when the stored parameter fingerprint equals the fingerprint of the new
operation's timeframe; otherwise return nil and start fresh.  (The
source also remembers the fingerprint on the client for later
checkpoint saves, which the model does not track.) -/
def prepareCheckpoint (acc : Account) (tf : Timeframe) : Option (List Nat) :=
  match acc.cp with
  | none => none
  | some cp => if cp.params != tf.render then none else some cp.data

/-- Method `successCleanup`: clear the account's checkpoint column and,
when an item was stored this run, advance `last_item_id` to the row id
tracked by `processSingleItemGraphNode`. -/
def successCleanup (st : State) : State :=
  let acc1 := { st.account with checkpoint := ([] : List Nat) }
  let acc2 := if st.runLastRowId > 0
    then { acc1 with lastItemId := some st.runLastRowId }
    else acc1
  { st with account := acc2 }

/-! The prune engine. -/

/-- Function `listItemsToDelete`: the row ids of the account's items
whose non-empty original id the presence filter does not contain (rows
with an empty original id are skipped). -/
def listItemsToDelete (st : State) : List Int :=
  ((st.items.filter (fun r => r.accountId == st.account.id)).filter (fun r =>
      r.originalId != "" && !((st.filterIds.getD []).contains r.originalId))).map
    (fun r => r.id)

/-- Function `deleteItem`: before deleting, count the rows sharing the
row's data file.  The counting query scans its `data_file` column into
a Go `string`; when the row has no (or an empty) data file the subquery
yields NULL, the scan fails, and the function returns before deleting
anything.  Otherwise the row is deleted, and its file is removed from
disk when it was the only reference. -/
def deleteItem (st : State) (rowId : Int) : State :=
  match (st.items.filter (fun r => r.id == rowId)).head? with
  | none => st
  | some r =>
    match r.dataFile with
    | none => st
    | some df =>
      if df == "" then st
      else
        let count := (st.items.filter (fun x => x.dataFile == some df)).length
        let st1 := { st with items := st.items.filter (fun x => x.id != rowId) }
        if count == 1 then removeFileIfExists st1 df else st1

/-- The deletion loop of `doPrune` (per-row errors are logged and the
loop continues). -/
def deleteItems (st : State) : List Int → State
  | [] => st
  | i :: rest => deleteItems (deleteItem st i) rest

/-- Function `doPrune`: refuse outright when the account row still
carries a checkpoint (the presence filter would be incomplete);
otherwise delete every listed item. -/
def doPrune (st : State) : State × Except String Unit :=
  if st.account.checkpoint.length > 0 then
    (st, .error ("checkpoint exists; refusing to prune for fear of incomplete item listing"))
  else
    (deleteItems st (listItemsToDelete st), .ok ())

/-- Result of an adapter's `ListItems` call: the single-node item
graphs it sent into the channel before returning, and its error
result. -/
structure ListingOutcome where
  items : List Item
  err : Option String
deriving Repr

/-- Method `GetAll`: build the presence filter when pruning, prepare
the checkpoint, process the listed items, and only on a listing success
run `successCleanup` and then the prune if requested. -/
def GetAll (hash : List Nat → String) (st : State) (po : ProcessingOptions)
    (listing : Option (List Nat) → ListingOutcome) : State × Except String Unit :=
  let st0 := if po.prune then { st with filterIds := some [] } else st
  let checkpoint := prepareCheckpoint st.account po.timeframe
  let out := listing checkpoint
  let st1 := processItems hash st0 out.items po
  match out.err with
  | some e => (st1, .error ("getting items from service: " ++ e))
  | none =>
    let st2 := successCleanup st1
    if po.prune then
      match doPrune st2 with
      | (st3, .ok _) => (st3, .ok ())
      | (st3, .error e) => (st3, .error ("processing completed, but error pruning: " ++ e))
    else (st2, .ok ())

/-- Timestamp and original id of the item `last_item_id` references
(0 and empty when unset or missing, as `sql.ErrNoRows` is ignored). -/
def mostRecentItem (st : State) : Int × String :=
  match st.account.lastItemId with
  | none => (0, "")
  | some lid =>
    match (st.items.filter (fun r => r.id == lid)).head? with
    | none => (0, "")
    | some r => (r.timestamp, r.originalId)

/-- Method `GetLatest`: reject unsupported options; constrain the pull
to the window after the most recent stored item; return immediately
when the caller's upper bound lies strictly before the most recent
item's timestamp (`timeframe.Until.Before(ts)`); otherwise list and
process, and clean up only on success.  GetLatest never prunes. -/
def GetLatest (hash : List Nat → String) (st : State) (po : ProcessingOptions)
    (listing : Timeframe → Option (List Nat) → ListingOutcome) :
    State × Except String Unit :=
  if po.reprocess || po.prune || po.integrity || po.timeframe.since.isSome then
    (st, .error ("get-latest does not support -reprocess, -prune, -integrity, or -start"))
  else
    let mr := mostRecentItem st
    let tf1 : Timeframe :=
      { since := none, untilT := po.timeframe.untilT,
        sinceItemID := none, untilItemID := none }
    let earlyStop := mr.1 > 0 &&
      (match tf1.untilT with
       | some u => u < mr.1
       | none => false)
    if earlyStop then (st, .ok ())
    else
      let tf2 := if mr.1 > 0 && tf1.untilT.isSome
        then { tf1 with since := some mr.1 } else tf1
      let tf3 := if mr.2 != "" then { tf2 with sinceItemID := some mr.2 } else tf2
      let checkpoint := prepareCheckpoint st.account tf3
      let out := listing tf3 checkpoint
      let st1 := processItems hash st out.items po
      match out.err with
      | some e => (st1, .error ("getting items from service: " ++ e))
      | none => (successCleanup st1, .ok ())

/-- The checkpoint blob the `Import` method hands to the adapter: the
raw `accounts.checkpoint` column value (`wc.acc.checkpoint`), without
any call to `prepareCheckpoint` and hence without the fingerprint
comparison. -/
def importOfferedCheckpoint (st : State) : List Nat := st.account.checkpoint

/-- Method `Import`: like `GetAll` but reading a local file, and
offering `importOfferedCheckpoint` to the adapter. -/
def importOperation (hash : List Nat → String) (st : State) (po : ProcessingOptions)
    (listing : List Nat → ListingOutcome) : State × Except String Unit :=
  let st0 := if po.prune then { st with filterIds := some [] } else st
  let out := listing (importOfferedCheckpoint st)
  let st1 := processItems hash st0 out.items po
  match out.err with
  | some e => (st1, .error ("importing: " ++ e))
  | none =>
    let st2 := successCleanup st1
    if po.prune then
      match doPrune st2 with
      | (st3, .ok _) => (st3, .ok ())
      | (st3, .error e) => (st3, .error ("processing completed, but error pruning: " ++ e))
    else (st2, .ok ())

/-! Relationship rows (the graph walker's inserts). -/

/-- A graph edge descriptor (struct `Relation`). -/
structure RelationDesc where
  label : String
  bidirectional : Bool
deriving DecidableEq, Repr

/-- A deferred relation by original ids (struct `RawRelation`). -/
structure RawRelationDesc where
  fromItemID : String
  toItemID : String
  rel : RelationDesc
deriving DecidableEq, Repr

/-- One row of the `relationships` table. -/
structure RelationshipRow where
  fromPersonId : Option Int
  fromItemId : Option Int
  toPersonId : Option Int
  toItemId : Option Int
  directed : Bool
  label : String
deriving DecidableEq, Repr

/-- The row inserted by `processItemGraph` for a graph edge (both the
current processor and the earlier `processing.go` version):
`directed = !rel.Bidirectional`. -/
def graphEdgeRelationshipRow (fromRowId toRowId : Int) (r : RelationDesc) :
    RelationshipRow :=
  { fromPersonId := none, fromItemId := some fromRowId, toPersonId := none,
    toItemId := some toRowId, directed := !r.bidirectional, label := r.label }

/-- The row inserted by the current processor for a deferred raw
relation: `directed = !rr.Bidirectional`. -/
def rawRelationshipRow (fromPersonId fromItemId toPersonId toItemId : Option Int)
    (rr : RawRelationDesc) : RelationshipRow :=
  { fromPersonId := fromPersonId, fromItemId := fromItemId,
    toPersonId := toPersonId, toItemId := toItemId,
    directed := !rr.rel.bidirectional, label := rr.rel.label }

/-- The row inserted by the `processing.go` version of
`processItemGraph` for a deferred raw relation: the VALUES list binds
`rr.Bidirectional` itself (not its negation) to the `directed` column,
while the error message of the same statement reports
`!rr.Bidirectional`. -/
def rawRelationshipRowLegacy (fromRowId toRowId : Int) (rr : RawRelationDesc) :
    RelationshipRow :=
  { fromPersonId := none, fromItemId := some fromRowId, toPersonId := none,
    toItemId := some toRowId, directed := rr.rel.bidirectional, label := rr.rel.label }

/-! Database invariants and concrete scenario values used by the
theorems below. -/

/-- Whether a deleted row has a non-NULL, non-empty data file, which is
what lets `deleteItem` get past its counting query. -/
def goodDataFile (r : ItemRow) : Bool :=
  match r.dataFile with
  | some df => df != ""
  | none => false

/-- The rows a prune run actually deletes: rows of the account with a
non-empty original id that the presence filter does not contain and
with a usable data file recorded. -/
def pruneDeletes (st : State) (r : ItemRow) : Bool :=
  r.accountId == st.account.id && r.originalId != "" &&
    !((st.filterIds.getD []).contains r.originalId) && goodDataFile r

/-- Row ids are pairwise distinct (the `items.id` primary key). -/
def IdsDistinct (items : List ItemRow) : Prop :=
  items.Pairwise (fun a b => a.id ≠ b.id)

/-- Row keys are pairwise distinct (the schema's
`UNIQUE (original_id, account_id)` constraint). -/
def KeysDistinct (items : List ItemRow) : Prop :=
  items.Pairwise (fun a b => ¬(a.accountId = b.accountId ∧ a.originalId = b.originalId))

/-- A row with the given id is intact in the table: it is present, and
it is the only row carrying its id. -/
def rowIntact (items : List ItemRow) (R : ItemRow) : Prop :=
  R ∈ items ∧ ∀ r ∈ items, r.id = R.id → r = R

/-- A stand-in content hash for the concrete runs: prepends a marker to
the printed byte list, hence injective on byte sequences. -/
def hashDemo : List Nat → String := fun bs => "h" ++ toString bs

/-- A fresh account. -/
def accDemo : Account :=
  { id := 1, userId := ("me"), checkpoint := [], cp := none, lastItemId := none }

/-- The empty repository for account `accDemo` on data source `svc`. -/
def st0C1 : State :=
  { items := [], files := [], persons := [], nextRowId := 1, nextPersonId := 1,
    account := accDemo, dsId := ("svc"), now := 1700000000, runLastRowId := 0,
    runLastTs := none, filterIds := none }

/-- Scenario-seed item A: original id `A`, bytes of `hello`. -/
def itemA : Item :=
  { id := ("A"), timestamp := 1700000000, classCode := 1, ownerId := none,
    ownerName := none, dataText := none, dataFileName := some ("hello.txt"),
    dataFileHash := none, dataFileMime := none,
    dataBytes := some [104, 101, 108, 108, 111], metaPayload := none,
    latitude := none, longitude := none }

/-- Scenario-seed item B: same bytes, original id `B`. -/
def itemB : Item := { itemA with id := ("B") }

/-- The state after processing item A and then item B with default
options. -/
def c1Run : State :=
  (storeItemFromService hashDemo
    (storeItemFromService hashDemo st0C1 itemA 1700000000 defaultProcessingOptions).1
    itemB 1700000000 defaultProcessingOptions).1

/-- A locally modified row with a recorded data file and hash. -/
def rowC2 : ItemRow :=
  { id := 1, accountId := 1, originalId := ("X"), personId := 1, timestamp := 100,
    stored := 10, modified := some 5, classCode := 1, mimeType := none,
    dataText := none, dataFile := some ("data/f.bin"), dataHash := some ("H"),
    metadata := none, latitude := none, longitude := none }

/-- A repository holding `rowC2` whose on-disk bytes `[1]` no longer
hash to the recorded `H`. -/
def stC2 : State :=
  { items := [rowC2], files := [(("data/f.bin"), [1])], persons := [(("me"), 1)],
    nextRowId := 2, nextPersonId := 2, account := accDemo, dsId := ("svc"),
    now := 999, runLastRowId := 0, runLastTs := none, filterIds := none }

/-- An incoming item with the same `(account_id, original_id)` as
`rowC2` and no data file. -/
def itC2 : Item :=
  { id := ("X"), timestamp := 100, classCode := 1, ownerId := none,
    ownerName := none, dataText := none, dataFileName := none,
    dataFileHash := none, dataFileMime := none, dataBytes := none,
    metaPayload := none, latitude := none, longitude := none }

/-- Processing options with only integrity checking enabled. -/
def poC2 : ProcessingOptions := { defaultProcessingOptions with integrity := true }

/-- An item row with an empty original id. -/
def rowEmptyId : ItemRow :=
  { rowC2 with id := 1, originalId := (""), dataFile := some ("data/x") }

/-- An item row with no data file, original id `K`. -/
def rowNoFile : ItemRow :=
  { rowC2 with id := 2, originalId := ("K"), dataFile := none, modified := none }

/-- An account state after a clean listing whose presence filter is
empty, holding `rowEmptyId` and `rowNoFile`. -/
def stC3 : State :=
  { stC2 with items := [rowEmptyId, rowNoFile], files := [(("data/x"), [7])],
              filterIds := some [] }

/-- An account whose stored checkpoint wrapper was fingerprinted with
parameters `P` and whose raw checkpoint column holds bytes 9,9,9. -/
def accC4 : Account :=
  { id := 7, userId := ("u"), checkpoint := [9, 9, 9],
    cp := some { params := ("P"), data := [1, 2] }, lastItemId := none }

/-- A state for account `accC4`. -/
def stC4 : State := { st0C1 with account := accC4 }

/-- A timeframe whose fingerprint differs from the stored `P`. -/
def tfC4 : Timeframe := { emptyTimeframe with untilT := some 5 }

/-- A clean row with timestamp 100 referenced by `last_item_id`. -/
def rowC5 : ItemRow :=
  { rowC2 with
      id := 1
      originalId := ("A")
      timestamp := 100
      modified := none
      dataFile := none
      dataHash := none }

/-- An account whose last stored item is `rowC5` (timestamp 100). -/
def stC5 : State :=
  { stC2 with items := [rowC5], files := [],
              account := { accDemo with lastItemId := some 1 } }

/-- A new item the adapter would list inside the window. -/
def itY : Item := { itC2 with id := ("Y"), timestamp := 100 }

/-- Get-latest options with upper bound 100 (equal to the last item's
timestamp). -/
def poC5 : ProcessingOptions :=
  { defaultProcessingOptions with
      timeframe := { emptyTimeframe with untilT := some 100 } }

/-- A listing that emits exactly `itY` and succeeds. -/
def listC5 : Timeframe → Option (List Nat) → ListingOutcome :=
  fun _ _ => { items := [itY], err := none }

/-- Get-latest options with upper bound 50 (strictly before the last
item's timestamp 100). -/
def poC5b : ProcessingOptions :=
  { defaultProcessingOptions with
      timeframe := { emptyTimeframe with untilT := some 50 } }

/-- Two distinct existing rows that both soft-match an incoming item at
timestamp 50 with text `dup`: the ambiguous candidate set. -/
def rowC8a : ItemRow :=
  { rowC2 with
      id := 1
      originalId := ("P")
      timestamp := 50
      modified := none
      dataFile := none
      dataHash := none
      dataText := some ("dup") }

/-- Second ambiguous candidate. -/
def rowC8b : ItemRow := { rowC8a with id := 2, originalId := ("Q") }

/-- State holding the two ambiguous candidates. -/
def stC8 : State := { stC2 with items := [rowC8a, rowC8b], files := [] }

/-- The incoming item whose soft-merge candidate set is ambiguous. -/
def itC8 : Item :=
  { itC2 with id := ("R"), timestamp := 50, dataText := some ("dup") }

/-- Options with soft merging enabled. -/
def poC8 : ProcessingOptions :=
  { defaultProcessingOptions with
      merge := { defaultMergeOptions with softMerge := true } }

/-- A bidirectional raw relation (as `RelAttached` is, for example). -/
def relC9 : RawRelationDesc :=
  { fromItemID := ("a"), toItemID := ("b"),
    rel := { label := ("attached"), bidirectional := true } }

/-- Whether an `Except` result is an error. -/
def isErr {α : Type} : Except String α → Bool
  | .error _ => true
  | .ok _ => false

/-! Claim theorems and their supporting lemmas. -/

/-- C1: processing two items with byte-identical data-file contents
(scenario: `A` and `B`, both the bytes of `hello`) leaves exactly one
file with those bytes on disk, but the second item's `data_file` column
still names its own freshly generated path, which
`replaceWithExisting` just deleted from disk: the dead assignment
`canonical = existingDatafile` at the end of `replaceWithExisting`
never propagates the surviving path to the caller or the database, so
the two rows do NOT point at the same file as the claim states. -/
theorem c1_dedup_single_file_stale_data_file_column :
    c1Run.files = [(("data/2023/11/svc/hello.txt"), [104, 101, 108, 108, 111])] ∧
    c1Run.items.map (fun r => (r.originalId, r.dataFile)) =
      [(("A"), some ("data/2023/11/svc/hello.txt")),
       (("B"), some ("data/2023/11/svc/hello_1.txt"))] ∧
    fileExists c1Run.files ("data/2023/11/svc/hello_1.txt") = false := by
  refine ⟨by decide, by decide, by decide⟩

/-- C4: the `Import` operation does not prepare its checkpoint: it
offers the raw `accounts.checkpoint` blob to the adapter even when the
stored fingerprint (`P`) differs from the operation's fingerprint, in
which case `prepareCheckpoint` (used by get-latest and get-all) would
offer nothing. -/
theorem c4_import_offers_checkpoint_despite_fingerprint_mismatch :
    prepareCheckpoint accC4 tfC4 = none ∧
    accC4.cp = some { params := ("P"), data := [1, 2] } ∧
    tfC4.render ≠ ("P") ∧
    importOfferedCheckpoint stC4 = [9, 9, 9] := by
  exact ⟨rfl, rfl, by decide, rfl⟩

/-- C9: the `processing.go` version of `processItemGraph` inserts a
deferred raw relation binding `rr.Bidirectional` itself to the
`directed` column (its own error message reports the negation), so for
a bidirectional relation the stored row has `directed = true`,
violating `directed = not bidirectional`; the graph-edge insert and the
current raw-relation insert do store the negation. -/
theorem c9_legacy_raw_relation_directed_not_negated :
    (rawRelationshipRowLegacy 1 2 relC9).directed = true ∧
    relC9.rel.bidirectional = true ∧
    (rawRelationshipRowLegacy 1 2 relC9).directed ≠ !relC9.rel.bidirectional ∧
    (graphEdgeRelationshipRow 1 2 relC9.rel).directed = !relC9.rel.bidirectional ∧
    (rawRelationshipRow none (some 1) none (some 2) relC9).directed =
      !relC9.rel.bidirectional := by
  exact ⟨rfl, rfl, by decide, rfl, rfl⟩

/-- C6: the prune engine refuses to run whenever the account still
carries a non-empty checkpoint: it returns the refusal error and the
state — item rows and data files — unchanged. -/
theorem c6_prune_refuses_under_checkpoint (st : State)
    (h : st.account.checkpoint ≠ []) :
    doPrune st =
      (st, .error ("checkpoint exists; refusing to prune for fear of incomplete item listing")) := by
  unfold doPrune
  have hl : st.account.checkpoint.length > 0 := by
    cases hc : st.account.checkpoint with
    | nil => exact absurd hc h
    | cons a l => simp [hc]
  simp [hl]

/-- Witness for C6 at a concrete state with checkpoint bytes 9,9,9. -/
theorem c6_prune_refuses_witness :
    stC4.account.checkpoint ≠ [] ∧
    doPrune stC4 =
      (stC4, .error ("checkpoint exists; refusing to prune for fear of incomplete item listing")) :=
  ⟨by decide, c6_prune_refuses_under_checkpoint stC4 (by decide)⟩

/-- C2 counterexample: `rowC2` is locally modified (`modified = 5`),
yet with integrity checking enabled and on-disk bytes that no longer
hash to the recorded `H`, `shouldProcessExistingItem` orders the
integrity branch before the modified check and reprocesses: after
processing, the row's `stored` column changed from 10 to 999 and its
`data_file` column was cleared — columns of a modified row changed,
contradicting the claim. -/
theorem c2_integrity_reprocesses_modified_row :
    rowC2.modified = some 5 ∧
    rowC2.stored = 10 ∧ rowC2.dataFile = some ("data/f.bin") ∧
    shouldProcessExistingItem hashDemo stC2 itC2 rowC2 false poC2 = true ∧
    (storeItemFromService hashDemo stC2 itC2 999 poC2).1.items.map
      (fun r => (r.id, r.stored, r.dataFile, r.modified)) =
      [(1, 999, none, some 5)] := by
  refine ⟨rfl, rfl, rfl, by decide, by decide⟩

/-- C3 counterexample: after a clean listing whose presence filter is
empty, prune succeeds but leaves both rows of the account in place:
the row with an empty original id is skipped by `listItemsToDelete`,
and the row `K` without a data file survives because `deleteItem`'s
counting query fails to scan the NULL `data_file` into a string and
returns before deleting — contradicting the claim that every row whose
original id is absent from the filter is deleted regardless of its
data file. -/
theorem c3_prune_keeps_fileless_and_emptyid_rows :
    stC3.filterIds = some [] ∧
    stC3.account.checkpoint = [] ∧
    isErr (doPrune stC3).2 = false ∧
    (doPrune stC3).1.items = [rowEmptyId, rowNoFile] ∧
    rowEmptyId.originalId = ("") ∧
    rowNoFile.originalId = ("K") ∧ rowNoFile.dataFile = none := by
  refine ⟨rfl, rfl, by decide, by decide, rfl, rfl, rfl⟩

/-- C5 counterexample: the account's last stored item has timestamp
T = 100 and the get-latest upper bound equals 100; `GetLatest` uses the
strict `timeframe.Until.Before(ts)` test, does not return immediately,
and inserts the listed item `Y` — one insert, where the claim (upper
bound less than or equal to T) predicts zero. -/
theorem c5_get_latest_until_equal_still_processes :
    mostRecentItem stC5 = (100, ("A")) ∧
    poC5.timeframe.untilT = some 100 ∧
    stC5.items.map (fun r => (r.id, r.originalId)) = [(1, ("A"))] ∧
    (GetLatest hashDemo stC5 poC5 listC5).1.items.map (fun r => (r.id, r.originalId)) =
      [(1, ("A")), (2, ("Y"))] := by
  refine ⟨by decide, rfl, by decide, by decide⟩

/-- C5 (amended): when the caller's upper bound lies strictly before
the positive timestamp of the account's last stored item, `GetLatest`
returns immediately with no error and performs no inserts or updates:
the state is returned unchanged. -/
theorem c5_get_latest_until_before_last_item_no_work
    (hash : List Nat → String) (st : State) (po : ProcessingOptions)
    (listing : Timeframe → Option (List Nat) → ListingOutcome) (u : Int)
    (hre : po.reprocess = false) (hpr : po.prune = false)
    (hin : po.integrity = false) (hsi : po.timeframe.since = none)
    (hu : po.timeframe.untilT = some u)
    (hpos : 0 < (mostRecentItem st).1)
    (hlt : u < (mostRecentItem st).1) :
    GetLatest hash st po listing = (st, Except.ok ()) := by
  unfold GetLatest
  simp [hre, hpr, hin, hsi, hu, hpos, hlt]

/-- Witness for the amended C5 at the concrete account whose last item
has timestamp 100 and an upper bound of 50. -/
theorem c5_get_latest_witness :
    GetLatest hashDemo stC5 poC5b listC5 = (stC5, Except.ok ()) :=
  c5_get_latest_until_before_last_item_no_work hashDemo stC5 poC5b listC5 50
    rfl rfl rfl rfl rfl (by decide) (by decide)

/-- Head of a filtered list when one known element is the only one
satisfying the predicate. -/
theorem head_filter_unique {α : Type} (p : α → Bool) (l : List α) (r : α)
    (hm : r ∈ l) (hp : p r = true) (huniq : ∀ x ∈ l, p x = true → x = r) :
    (l.filter p).head? = some r := by
  induction l with
  | nil => cases hm
  | cons a t ih =>
    rcases List.mem_cons.mp hm with rfl | hm2
    · simp [List.filter_cons, hp]
    · by_cases hpa : p a = true
      · have ha : a = r := huniq a (List.mem_cons_self a t) hpa
        subst ha
        simp [List.filter_cons, hpa]
      · have hpa2 : p a = false := Bool.eq_false_iff.mpr hpa
        simp only [List.filter_cons, hpa2]
        exact ih hm2 (fun x hx hpx => huniq x (List.mem_cons_of_mem a hx) hpx)

/-- Two rows of a table with distinct ids are equal when their ids
coincide. -/
theorem idsDistinct_unique {items : List ItemRow} (hd : IdsDistinct items)
    {r R : ItemRow} (hr : r ∈ items) (hR : R ∈ items) (h : r.id = R.id) : r = R := by
  by_contra hne
  have hsym : Symmetric (fun a b : ItemRow => a.id ≠ b.id) :=
    fun a b hab => fun hba => hab hba.symm
  exact (List.Pairwise.forall hsym hd) hr hR hne h

/-- Two rows of a table with distinct keys are equal when their
`(account_id, original_id)` keys coincide. -/
theorem keysDistinct_unique {items : List ItemRow} (hk : KeysDistinct items)
    {r R : ItemRow} (hr : r ∈ items) (hR : R ∈ items)
    (ha : r.accountId = R.accountId) (ho : r.originalId = R.originalId) : r = R := by
  by_contra hne
  have hsym : Symmetric
      (fun a b : ItemRow => ¬(a.accountId = b.accountId ∧ a.originalId = b.originalId)) :=
    fun a b hab => fun hba => hab ⟨hba.1.symm, hba.2.symm⟩
  exact (List.Pairwise.forall hsym hk) hr hR hne ⟨ha, ho⟩

/-- A distinct-id table keeps every member intact. -/
theorem rowIntact_of_idsDistinct {items : List ItemRow} {R : ItemRow}
    (hd : IdsDistinct items) (hm : R ∈ items) : rowIntact items R :=
  ⟨hm, fun r hr h => idsDistinct_unique hd hr hm h⟩

/-- Mapping an id-preserving function that fixes the intact row keeps
it intact. -/
theorem rowIntact_map {items : List ItemRow} {R : ItemRow}
    (f : ItemRow → ItemRow) (h : rowIntact items R)
    (hf : ∀ r, (f r).id = r.id) (hR : f R = R) : rowIntact (items.map f) R := by
  constructor
  · exact hR ▸ List.mem_map_of_mem f h.1
  · intro r hr hid
    rcases List.mem_map.mp hr with ⟨x, hx, rfl⟩
    have hxid : x.id = R.id := by rw [← hf x]; exact hid
    have : x = R := h.2 x hx hxid
    rw [this, hR]

/-- Appending rows with fresh ids keeps an intact row intact. -/
theorem rowIntact_append {items : List ItemRow} {R : ItemRow}
    (l2 : List ItemRow) (h : rowIntact items R)
    (hnew : ∀ r ∈ l2, r.id ≠ R.id) : rowIntact (items ++ l2) R := by
  constructor
  · exact List.mem_append_left l2 h.1
  · intro r hr hid
    rcases List.mem_append.mp hr with hr1 | hr2
    · exact h.2 r hr1 hid
    · exact absurd hid (hnew r hr2)

/-- A row returned by `loadItemRow` belongs to the table and carries
the requested key. -/
theorem loadItemRow_key {items : List ItemRow} {a : Int} {oid : String} {r : ItemRow}
    (h : loadItemRow items a oid = some r) :
    r ∈ items ∧ r.accountId = a ∧ r.originalId = oid := by
  unfold loadItemRow at h
  have hm := List.mem_of_mem_head? (by rw [h]; exact rfl)
  have h1 := List.mem_filter.mp hm
  refine ⟨h1.1, ?_, ?_⟩
  · have := h1.2
    simp only [Bool.and_eq_true, beq_iff_eq] at this
    exact this.1
  · have := h1.2
    simp only [Bool.and_eq_true, beq_iff_eq] at this
    exact this.2

/-- Under distinct keys, `loadItemRow` finds exactly the member with
the requested key. -/
theorem loadItemRow_eq_of_mem {items : List ItemRow} (hk : KeysDistinct items)
    {R : ItemRow} {a : Int} {oid : String}
    (hm : R ∈ items) (ha : R.accountId = a) (ho : R.originalId = oid) :
    loadItemRow items a oid = some R := by
  unfold loadItemRow
  refine head_filter_unique _ items R hm ?_ ?_
  · simp [ha, ho]
  · intro x hx hpx
    simp only [Bool.and_eq_true, beq_iff_eq] at hpx
    exact keysDistinct_unique hk hx hm (hpx.1.trans ha.symm) (hpx.2.trans ho.symm)

/-- File operations leave the item table untouched. -/
theorem renameFileIfExists_items (st : State) (a b : String) :
    (renameFileIfExists st a b).items = st.items := by
  unfold renameFileIfExists
  cases lookupFile st a <;> rfl

/-- File operations leave the account untouched. -/
theorem renameFileIfExists_account (st : State) (a b : String) :
    (renameFileIfExists st a b).account = st.account := by
  unfold renameFileIfExists
  cases lookupFile st a <;> rfl

/-- The person resolver touches only the person table. -/
theorem getPerson_state (st : State) (u : String) :
    (getPerson st u).1.items = st.items ∧ (getPerson st u).1.account = st.account ∧
    (getPerson st u).1.nextRowId = st.nextRowId := by
  unfold getPerson
  cases st.persons.lookup u <;> exact ⟨rfl, rfl, rfl⟩

/-- `fillItemRow` touches only the person table. -/
theorem fillItemRow_state (st : State) (ir : ItemRow) (it : Item) (oid : String)
    (ts : Int) (dfn : Option String) :
    (fillItemRow st ir it oid ts dfn).1.items = st.items ∧
    (fillItemRow st ir it oid ts dfn).1.account = st.account ∧
    (fillItemRow st ir it oid ts dfn).1.nextRowId = st.nextRowId := by
  unfold fillItemRow
  exact getPerson_state st (it.ownerId.getD st.account.userId)

/-- The row `fillItemRow` assembles carries the account id and the
processed original id as its key. -/
theorem fillItemRow_row_key (st : State) (ir : ItemRow) (it : Item) (oid : String)
    (ts : Int) (dfn : Option String) :
    (fillItemRow st ir it oid ts dfn).2.accountId = st.account.id ∧
    (fillItemRow st ir it oid ts dfn).2.originalId = oid := by
  unfold fillItemRow
  exact ⟨rfl, rfl⟩

/-- A successful unique-name search leaves items and account
untouched. -/
theorem openUnique_state (st : State) (it : Item) {st1 : State} {name : String}
    (h : openUniqueCanonicalItemDataFile st it = .ok (st1, name)) :
    st1.items = st.items ∧ st1.account = st.account ∧ st1.nextRowId = st.nextRowId := by
  simp only [openUniqueCanonicalItemDataFile] at h
  split at h
  · cases h
  · cases h
    exact ⟨rfl, rfl, rfl⟩

/-- `replaceWithExisting` touches only the on-disk files. -/
theorem replaceWithExisting_state (hash : List Nat → String) (st : State)
    (c : Option String) (h : String) (i : Int) :
    (replaceWithExisting hash st c h i).1.items = st.items ∧
    (replaceWithExisting hash st c h i).1.account = st.account ∧
    (replaceWithExisting hash st c h i).1.nextRowId = st.nextRowId := by
  simp only [replaceWithExisting, removeFileIfExists, renameFileIfExists]
  repeat' split
  all_goals exact ⟨rfl, rfl, rfl⟩

/-- The update clause preserves the row id. -/
theorem mergedRow_id (old ir : ItemRow) (sm : Bool) (po : ProcessingOptions) :
    (mergedRow old ir sm po).id = old.id := by
  unfold mergedRow
  split <;> rfl

/-- The upsert touches only the item table and the id counter. -/
theorem insertOrUpdateItem_account (st : State) (ir : ItemRow) (sm : Bool)
    (po : ProcessingOptions) :
    (insertOrUpdateItem st ir sm po).account = st.account := by
  unfold insertOrUpdateItem
  split <;> rfl

/-- A row whose key differs from the upserted key and whose id is below
the id counter stays intact through the upsert. -/
theorem insertOrUpdateItem_rowIntact (st : State) (ir : ItemRow) (sm : Bool)
    (po : ProcessingOptions) {R : ItemRow}
    (h : rowIntact st.items R) (hfresh : R.id < st.nextRowId)
    (hkey : ¬(R.accountId = ir.accountId ∧ R.originalId = ir.originalId)) :
    rowIntact (insertOrUpdateItem st ir sm po).items R := by
  have hcond : (R.accountId == ir.accountId && R.originalId == ir.originalId) = false := by
    rw [Bool.eq_false_iff]
    intro hc
    simp only [Bool.and_eq_true, beq_iff_eq] at hc
    exact hkey hc
  unfold insertOrUpdateItem
  split
  · refine rowIntact_map _ h ?_ ?_
    · intro r
      split
      · exact mergedRow_id _ _ _ _
      · rfl
    · simp [hcond]
  · refine rowIntact_append _ h ?_
    intro r hr
    simp only [List.mem_singleton] at hr
    subst hr
    intro hc
    simp only at hc
    omega

/-- The hash update touches only the item table. -/
theorem updateDataHash_account (st : State) (i : Int) (hsh : String) :
    (updateDataHash st i hsh).account = st.account := rfl

/-- A row with a different id stays intact through the hash update. -/
theorem updateDataHash_rowIntact (st : State) (i : Int) (hsh : String) {R : ItemRow}
    (h : rowIntact st.items R) (hne : i ≠ R.id) :
    rowIntact (updateDataHash st i hsh).items R := by
  unfold updateDataHash
  refine rowIntact_map _ h ?_ ?_
  · intro r
    split <;> rfl
  · have hc : (R.id == i) = false := by
      rw [Bool.eq_false_iff]
      intro hc
      exact hne (beq_iff_eq.mp hc).symm
    simp [hc]

/-- A successful `softMerge`-issued original-id update touches only the
item table. -/
theorem updateOriginalId_account (st : State) (i : Int) (n : String) {st1 : State}
    (h : updateOriginalId st i n = .ok st1) : st1.account = st.account := by
  unfold updateOriginalId at h
  split at h
  · cases h
    rfl
  · split at h
    · cases h
    · cases h
      rfl

/-- A successful soft merge touches only the item table. -/
theorem softMerge_account (st : State) (it : Item) (po : ProcessingOptions)
    {st1 : State} {oid : String} {b : Bool}
    (h : softMerge st it po = .ok (st1, oid, b)) : st1.account = st.account := by
  unfold softMerge at h
  rcases hc : softMergeCandidates st it with _ | ⟨r, _ | ⟨r2, t⟩⟩ <;> rw [hc] at h <;>
    simp only [] at h
  · cases h
    rfl
  · by_cases hp : (!po.merge.preferNewID) = true
    · rw [if_pos hp] at h
      cases h
      rfl
    · rw [if_neg (by simpa using hp)] at h
      rcases hu : updateOriginalId st r.id it.id with e | stu <;> rw [hu] at h
      · cases h
      · cases h
        exact updateOriginalId_account st _ _ hu
  · cases h

/-- `storeItemWrite` preserves the account. -/
theorem storeItemWrite_account (hash : List Nat → String) (st : State) (it : Item)
    (ir0 : ItemRow) (oid : String) (pdf : Bool) (ts : Int) (sm : Bool)
    (po : ProcessingOptions) (dfn : Option String) :
    (storeItemWrite hash st it ir0 oid pdf ts sm po dfn).1.account = st.account := by
  simp only [storeItemWrite]
  have hfillState := fillItemRow_state st ir0 it oid ts dfn
  set F := fillItemRow st ir0 it oid ts dfn with hF
  set st3 := insertOrUpdateItem F.1 F.2 sm po with hst3
  have hacc3 : st3.account = st.account := by
    rw [hst3, insertOrUpdateItem_account]
    exact hfillState.2.1
  split
  · split
    · exact hacc3
    · next name =>
      split
      next st5 e heq =>
        have hr := (replaceWithExisting_state hash (writeFile st3 name (it.dataBytes.getD []))
          (some name) (hash (it.dataBytes.getD []))
          (match loadItemRow st3.items F.2.accountId F.2.originalId with
           | some r => r.id
           | none => 0)).2.1
        rw [heq] at hr
        simp only at hr ⊢
        rw [hr]
        exact hacc3
      next st5 u heq =>
        have hr := (replaceWithExisting_state hash (writeFile st3 name (it.dataBytes.getD []))
          (some name) (hash (it.dataBytes.getD []))
          (match loadItemRow st3.items F.2.accountId F.2.originalId with
           | some r => r.id
           | none => 0)).2.1
        rw [heq] at hr
        simp only at hr ⊢
        rw [updateDataHash_account, hr]
        exact hacc3
  · exact hacc3

/-- A row with a positive id below the counter and a key different from
the processed item's key stays intact through `storeItemWrite`. -/
theorem storeItemWrite_rowIntact (hash : List Nat → String) (st : State) (it : Item)
    (ir0 : ItemRow) (oid : String) (pdf : Bool) (ts : Int) (sm : Bool)
    (po : ProcessingOptions) (dfn : Option String) {R : ItemRow}
    (h : rowIntact st.items R) (hfresh : R.id < st.nextRowId) (hpos : 0 < R.id)
    (hkey : ¬(R.accountId = st.account.id ∧ R.originalId = oid)) :
    rowIntact (storeItemWrite hash st it ir0 oid pdf ts sm po dfn).1.items R := by
  simp only [storeItemWrite]
  have hfillState := fillItemRow_state st ir0 it oid ts dfn
  have hfillKey := fillItemRow_row_key st ir0 it oid ts dfn
  set F := fillItemRow st ir0 it oid ts dfn with hF
  set st3 := insertOrUpdateItem F.1 F.2 sm po with hst3
  have h3 : rowIntact st3.items R := by
    rw [hst3]
    refine insertOrUpdateItem_rowIntact _ _ _ _ ?_ ?_ ?_
    · rw [hfillState.1]
      exact h
    · rw [hfillState.2.2]
      exact hfresh
    · rw [hfillKey.1, hfillKey.2]
      exact hkey
  have hne : (match loadItemRow st3.items F.2.accountId F.2.originalId with
      | some r => r.id
      | none => 0) ≠ R.id := by
    rcases hl : loadItemRow st3.items F.2.accountId F.2.originalId with _ | r
    · simp only []
      omega
    · simp only []
      intro hc
      have hk := loadItemRow_key hl
      have hrR : r = R := h3.2 r hk.1 hc
      subst hrR
      exact hkey ⟨hk.2.1.trans hfillKey.1, hk.2.2.trans hfillKey.2⟩
  split
  · split
    · exact h3
    · next name =>
      split
      next st5 e heq =>
        have hr := (replaceWithExisting_state hash (writeFile st3 name (it.dataBytes.getD []))
          (some name) (hash (it.dataBytes.getD []))
          (match loadItemRow st3.items F.2.accountId F.2.originalId with
           | some r => r.id
           | none => 0)).1
        rw [heq] at hr
        simp only at hr ⊢
        rw [hr]
        exact h3
      next st5 u heq =>
        have hr := (replaceWithExisting_state hash (writeFile st3 name (it.dataBytes.getD []))
          (some name) (hash (it.dataBytes.getD []))
          (match loadItemRow st3.items F.2.accountId F.2.originalId with
           | some r => r.id
           | none => 0)).1
        rw [heq] at hr
        simp only at hr ⊢
        refine updateDataHash_rowIntact _ _ _ ?_ ?_
        · rw [hr]
          exact h3
        · exact fun hc => hne hc
  · exact h3

/-- File renames do not touch the row-id counter. -/
theorem renameFileIfExists_nextRowId (st : State) (a b : String) :
    (renameFileIfExists st a b).nextRowId = st.nextRowId := by
  unfold renameFileIfExists
  cases lookupFile st a <;> rfl

/-- A soft-merge candidate belongs to the account's table under a
different original id. -/
theorem softMergeCandidates_mem {st : State} {it : Item} {r : ItemRow}
    (h : r ∈ softMergeCandidates st it) :
    r ∈ st.items ∧ r.accountId = st.account.id ∧ r.originalId ≠ it.id := by
  unfold softMergeCandidates at h
  have h1 := List.mem_filter.mp h
  refine ⟨h1.1, ?_, ?_⟩
  · have := h1.2
    simp only [Bool.and_eq_true, beq_iff_eq] at this
    exact this.1.1.1
  · have := h1.2
    simp only [Bool.and_eq_true, bne_iff_ne] at this
    exact this.2

/-- Shape of a successful `softMerge`: no candidate (proceed under the
item's own id without merging), or one candidate with either the
existing id adopted or the candidate's id rewritten. -/
theorem softMerge_ok_cases {st : State} {it : Item} {po : ProcessingOptions}
    {st1 : State} {oid : String} {b : Bool}
    (h : softMerge st it po = .ok (st1, oid, b)) :
    (st1 = st ∧ oid = it.id ∧ b = false) ∨
    (∃ r, softMergeCandidates st it = [r] ∧ b = true ∧
      ((st1 = st ∧ oid = r.originalId ∧ po.merge.preferNewID = false) ∨
       (updateOriginalId st r.id it.id = .ok st1 ∧ oid = it.id))) := by
  unfold softMerge at h
  rcases hc : softMergeCandidates st it with _ | ⟨r, _ | ⟨r2, t⟩⟩ <;> rw [hc] at h <;>
    simp only [] at h
  · cases h
    exact Or.inl ⟨rfl, rfl, rfl⟩
  · by_cases hp : (!po.merge.preferNewID) = true
    · rw [if_pos hp] at h
      cases h
      exact Or.inr ⟨r, rfl, rfl, Or.inl ⟨rfl, rfl, by simpa using hp⟩⟩
    · rw [if_neg (by simpa using hp)] at h
      rcases hu : updateOriginalId st r.id it.id with e | stu <;> rw [hu] at h
      · cases h
      · cases h
        exact Or.inr ⟨r, rfl, rfl, Or.inr ⟨hu, rfl⟩⟩
  · cases h

/-- Rewriting a candidate row's original id to one that another row of
the same account already carries hits the uniqueness constraint. -/
theorem updateOriginalId_conflict (st : State) (hids : IdsDistinct st.items)
    {cand R : ItemRow} {newId : String}
    (hcand : cand ∈ st.items) (hR : R ∈ st.items) (hne : R ≠ cand)
    (haccEq : R.accountId = cand.accountId) (hoid : R.originalId = newId) :
    updateOriginalId st cand.id newId =
      .error ("UNIQUE constraint failed: items.original_id, items.account_id") := by
  unfold updateOriginalId
  have htarget : (st.items.filter (fun r => r.id == cand.id)).head? = some cand := by
    refine head_filter_unique _ _ cand hcand (by simp) ?_
    intro x hx hpx
    exact idsDistinct_unique hids hx hcand (beq_iff_eq.mp hpx)
  rw [htarget]
  have hidne : R.id ≠ cand.id := fun hcEq => hne (idsDistinct_unique hids hR hcand hcEq)
  have hany : (st.items.any (fun r => r.id != cand.id && r.accountId == cand.accountId &&
      r.originalId == newId)) = true := by
    refine List.any_eq_true.mpr ⟨R, hR, ?_⟩
    simp only [Bool.and_eq_true, bne_iff_ne, beq_iff_eq]
    exact ⟨⟨hidne, haccEq⟩, hoid⟩
  simp only []
  rw [if_pos hany]

/-- With the integrity branch not firing, a locally modified row is
never selected for reprocessing. -/
theorem shouldProcess_false_of_modified (hash : List Nat → String) (st : State)
    (it : Item) (dbItem : ItemRow) (b : Bool) (po : ProcessingOptions)
    (hmod : dbItem.modified.isSome = true)
    (hintg : ¬(po.integrity = true ∧ integrityMismatch hash st dbItem = true)) :
    shouldProcessExistingItem hash st it dbItem b po = false := by
  unfold shouldProcessExistingItem
  have hcond : (po.integrity && integrityMismatch hash st dbItem) = false := by
    rw [Bool.eq_false_iff]
    intro hc
    exact hintg (by simpa [Bool.and_eq_true] using hc)
  rw [hcond]
  simp [hmod]

/-- A row with a positive id below the counter and a key different from
the processed item's key stays intact through `storeItemRest`. -/
theorem storeItemRest_rowIntact (hash : List Nat → String) (st : State) (it : Item)
    (ir0 : ItemRow) (oid : String) (pdf : Bool) (ts : Int) (sm : Bool)
    (po : ProcessingOptions) {R : ItemRow}
    (h : rowIntact st.items R) (hfresh : R.id < st.nextRowId) (hpos : 0 < R.id)
    (hkey : ¬(R.accountId = st.account.id ∧ R.originalId = oid)) :
    rowIntact (storeItemRest hash st it ir0 oid pdf ts sm po).1.items R := by
  unfold storeItemRest
  split
  · split
    · exact h
    · next st1 name heq =>
      have ho := openUnique_state st it heq
      refine storeItemWrite_rowIntact hash st1 it ir0 oid pdf ts sm po (some name) ?_ ?_ hpos ?_
      · rw [ho.1]
        exact h
      · rw [ho.2.2]
        exact hfresh
      · rw [ho.2.1]
        exact hkey
  · exact storeItemWrite_rowIntact hash st it ir0 oid pdf ts sm po none h hfresh hpos hkey

/-- `storeItemRest` preserves the account. -/
theorem storeItemRest_account (hash : List Nat → String) (st : State) (it : Item)
    (ir0 : ItemRow) (oid : String) (pdf : Bool) (ts : Int) (sm : Bool)
    (po : ProcessingOptions) :
    (storeItemRest hash st it ir0 oid pdf ts sm po).1.account = st.account := by
  unfold storeItemRest
  split
  · split
    · rfl
    · next st1 name heq =>
      rw [storeItemWrite_account]
      exact (openUnique_state st it heq).2.1
  · rw [storeItemWrite_account]

/-- C2 (amended): for every existing item row with non-null `modified`,
processing an incoming item with the same `(account_id, original_id)`
under any combination of processing options leaves every column of
that row unchanged (the row stays intact: still present, and the only
row with its id), UNLESS integrity checking is enabled and the
integrity re-hash of the row's recorded data file mismatches (missing
file or changed bytes), in which case the row is reprocessed.  The
hypotheses `IdsDistinct`, `KeysDistinct`, the id bound and positivity
are the items table's primary-key and uniqueness invariants. -/
theorem c2_modified_row_untouched_unless_integrity_mismatch
    (hash : List Nat → String) (st : State) (it : Item) (ts : Int)
    (po : ProcessingOptions) (R : ItemRow)
    (hids : IdsDistinct st.items) (hkeys : KeysDistinct st.items)
    (hfresh : R.id < st.nextRowId) (hpos : 0 < R.id)
    (hmem : R ∈ st.items) (hacc : R.accountId = st.account.id)
    (hoid : R.originalId = it.id) (hneid : it.id ≠ "")
    (hmod : R.modified.isSome = true)
    (hintg : ¬(po.integrity = true ∧ integrityMismatch hash st R = true)) :
    rowIntact (storeItemFromService hash st it ts po).1.items R := by
  have hintact : rowIntact st.items R := rowIntact_of_idsDistinct hids hmem
  have hkeyR : ∀ oid2 : String, oid2 ≠ it.id →
      ¬(R.accountId = st.account.id ∧ R.originalId = oid2) := by
    intro oid2 hne2 hc
    exact hne2 (hc.2.symm.trans hoid)
  have hbne : (it.id != "") = true := by simpa using hneid
  have hload : loadItemRow st.items st.account.id it.id = some R :=
    loadItemRow_eq_of_mem hkeys hmem hacc hoid
  simp only [storeItemFromService]
  split
  · exact hintact
  next st1 oid b heq =>
    have hself : st1 = st → oid = it.id →
        rowIntact
          (match (if (oid != "") = true then loadItemRow st1.items st1.account.id oid else none) with
            | none => storeItemRest hash st1 it emptyItemRow oid it.dataBytes.isSome ts b po
            | some ir =>
              if (!shouldProcessExistingItem hash st1 it ir b po) = true then (st1, Except.ok ir.id)
              else
                if (it.dataBytes.isSome && (ir.dataFile.isNone || !b || po.merge.preferNewDataFile)) = true then
                  match ir.dataFile with
                  | none => (st1, Except.error "runtime panic: invalid memory address or nil pointer dereference")
                  | some origFile =>
                    match storeItemRest hash (renameFileIfExists st1 origFile (origFile ++ ".bak")) it ir oid
                        (it.dataBytes.isSome && (ir.dataFile.isNone || !b || po.merge.preferNewDataFile)) ts b po with
                    | (st3, Except.ok rid) => (removeFileIfExists st3 (origFile ++ ".bak"), Except.ok rid)
                    | (st3, Except.error e) =>
                      (renameFileIfExists st3 (origFile ++ ".bak") origFile, Except.error e)
                else storeItemRest hash st1 it ir oid
                  (it.dataBytes.isSome && (ir.dataFile.isNone || !b || po.merge.preferNewDataFile))
                  ts b po).1.items R := by
      intro h1 h2
      subst h1
      subst h2
      rw [hbne, if_pos rfl, hload]
      simp only []
      rw [shouldProcess_false_of_modified hash st1 it R b po hmod hintg]
      simp only [Bool.not_false, if_true]
      exact hintact
    have hother : ∀ cand : ItemRow, cand ∈ softMergeCandidates st it → st1 = st →
        oid = cand.originalId →
        rowIntact
          (match (if (oid != "") = true then loadItemRow st1.items st1.account.id oid else none) with
            | none => storeItemRest hash st1 it emptyItemRow oid it.dataBytes.isSome ts b po
            | some ir =>
              if (!shouldProcessExistingItem hash st1 it ir b po) = true then (st1, Except.ok ir.id)
              else
                if (it.dataBytes.isSome && (ir.dataFile.isNone || !b || po.merge.preferNewDataFile)) = true then
                  match ir.dataFile with
                  | none => (st1, Except.error "runtime panic: invalid memory address or nil pointer dereference")
                  | some origFile =>
                    match storeItemRest hash (renameFileIfExists st1 origFile (origFile ++ ".bak")) it ir oid
                        (it.dataBytes.isSome && (ir.dataFile.isNone || !b || po.merge.preferNewDataFile)) ts b po with
                    | (st3, Except.ok rid) => (removeFileIfExists st3 (origFile ++ ".bak"), Except.ok rid)
                    | (st3, Except.error e) =>
                      (renameFileIfExists st3 (origFile ++ ".bak") origFile, Except.error e)
                else storeItemRest hash st1 it ir oid
                  (it.dataBytes.isSome && (ir.dataFile.isNone || !b || po.merge.preferNewDataFile))
                  ts b po).1.items R := by
      intro cand hcmem h1 h2
      subst h1
      subst h2
      have hc := softMergeCandidates_mem hcmem
      have hkeyC : ¬(R.accountId = st1.account.id ∧ R.originalId = cand.originalId) :=
        hkeyR cand.originalId hc.2.2
      split
      · exact storeItemRest_rowIntact hash st1 it emptyItemRow cand.originalId
          it.dataBytes.isSome ts b po hintact hfresh hpos hkeyC
      next ir hirload =>
        have hirfacts : ir ∈ st1.items ∧ ir.accountId = st1.account.id ∧
            ir.originalId = cand.originalId := by
          by_cases hce : (cand.originalId != "") = true
          · rw [if_pos hce] at hirload
            exact loadItemRow_key hirload
          · rw [if_neg hce] at hirload
            cases hirload
        split
        · exact hintact
        · split
          · split
            · exact hintact
            next origFile hdf =>
              have hrest := storeItemRest_rowIntact hash
                (renameFileIfExists st1 origFile (origFile ++ ".bak")) it ir cand.originalId
                (it.dataBytes.isSome && (ir.dataFile.isNone || !b || po.merge.preferNewDataFile))
                ts b po
                (by rw [renameFileIfExists_items]; exact hintact)
                (by rw [renameFileIfExists_nextRowId]; exact hfresh)
                hpos
                (by rw [renameFileIfExists_account]; exact hkeyC)
              split
              next st3 rid heq3 =>
                rw [heq3] at hrest
                simp only at hrest
                exact hrest
              next st3 e heq3 =>
                rw [heq3] at hrest
                simp only at hrest
                rw [renameFileIfExists_items]
                exact hrest
          · exact storeItemRest_rowIntact hash st1 it ir cand.originalId
              (it.dataBytes.isSome && (ir.dataFile.isNone || !b || po.merge.preferNewDataFile))
              ts b po hintact hfresh hpos hkeyC
    by_cases hsm : po.merge.softMerge = true
    · rw [if_pos hsm] at heq
      rcases softMerge_ok_cases heq with ⟨h1, h2, h3⟩ | ⟨r, hcand, hb, hcase⟩
      · exact hself h1 h2
      · have hrmem : r ∈ softMergeCandidates st it := by
          rw [hcand]
          exact List.mem_singleton.mpr rfl
        have hcm := softMergeCandidates_mem hrmem
        rcases hcase with ⟨h1, h2, hpref⟩ | ⟨hupd, h2⟩
        · exact hother r hrmem h1 h2
        · have hRne : R ≠ r := fun hcEq => hcm.2.2 (hcEq ▸ hoid)
          rw [updateOriginalId_conflict st hids hcm.1 hmem hRne
            (hacc.trans hcm.2.1.symm) hoid] at hupd
          cases hupd
    · rw [if_neg hsm] at heq
      cases heq
      exact hself rfl rfl

/-- Witness for the amended C2: the modified row `rowC2` survives a
processing run (integrity off) completely unchanged. -/
theorem c2_modified_row_untouched_witness :
    rowIntact (storeItemFromService hashDemo stC2 itC2 999
      defaultProcessingOptions).1.items rowC2 :=
  c2_modified_row_untouched_unless_integrity_mismatch hashDemo stC2 itC2 999
    defaultProcessingOptions rowC2 (by unfold IdsDistinct; decide)
    (by unfold KeysDistinct; decide) (by decide) (by decide)
    (by decide) (by decide) (by decide) (by decide) (by decide) (by decide)

/-- Effect of `deleteItem` on the item table: exactly the rows whose id
matches and whose data file is usable disappear (at most one row, by
id distinctness). -/
theorem deleteItem_items (st : State) (i : Int) (hids : IdsDistinct st.items) :
    (deleteItem st i).items = st.items.filter (fun r => !(r.id == i && goodDataFile r)) := by
  unfold deleteItem
  rcases hh : (st.items.filter (fun r => r.id == i)).head? with _ | r
  · rw [hh]
    simp only []
    have hempty : st.items.filter (fun r => r.id == i) = [] := List.head?_eq_none_iff.mp hh
    have hnone : ∀ x ∈ st.items, ¬((x.id == i) = true) := by
      intro x hx hc
      have hmemf : x ∈ st.items.filter (fun r => r.id == i) := List.mem_filter.mpr ⟨hx, hc⟩
      rw [hempty] at hmemf
      cases hmemf
    symm
    apply List.filter_eq_self.mpr
    intro x hx
    cases hg : (x.id == i) with
    | false => simp
    | true => exact absurd hg (hnone x hx)
  · rw [hh]
    have hrmem := List.mem_filter.mp (List.mem_of_mem_head? (by rw [hh]; exact rfl))
    have hridEq : r.id = i := beq_iff_eq.mp hrmem.2
    have huniq : ∀ x ∈ st.items, (x.id == i) = true → x = r := by
      intro x hx hxi
      exact idsDistinct_unique hids hx hrmem.1 ((beq_iff_eq.mp hxi).trans hridEq.symm)
    simp only []
    rcases hdf : r.dataFile with _ | df
    · have hbad : goodDataFile r = false := by
        unfold goodDataFile
        rw [hdf]
      symm
      apply List.filter_eq_self.mpr
      intro x hx
      cases hg : (x.id == i) with
      | false => simp
      | true =>
        have hxr : x = r := huniq x hx hg
        subst hxr
        simp [hbad]
    · simp only []
      by_cases hde : (df == "") = true
      · rw [if_pos hde]
        have hbad : goodDataFile r = false := by
          unfold goodDataFile
          rw [hdf]
          simpa using hde
        symm
        apply List.filter_eq_self.mpr
        intro x hx
        cases hg : (x.id == i) with
        | false => simp
        | true =>
          have hxr : x = r := huniq x hx hg
          subst hxr
          simp [hbad]
      · rw [if_neg hde]
        have hgood : goodDataFile r = true := by
          unfold goodDataFile
          rw [hdf]
          simpa using hde
        have hsame : st.items.filter (fun x => x.id != i) =
            st.items.filter (fun x => !(x.id == i && goodDataFile x)) := by
          apply List.filter_congr
          intro x hx
          cases hg : (x.id == i) with
          | false => simp [bne, hg]
          | true =>
            have hxr : x = r := huniq x hx hg
            subst hxr
            simp [bne, hg, hgood]
        split
        · show (removeFileIfExists _ df).items = _
          unfold removeFileIfExists
          exact hsame
        · exact hsame

/-- Filtering preserves distinctness of row ids. -/
theorem IdsDistinct_filter (items : List ItemRow) (p : ItemRow → Bool)
    (h : IdsDistinct items) : IdsDistinct (items.filter p) :=
  List.Pairwise.sublist (List.filter_sublist items) h

/-- Effect of the `doPrune` deletion loop on the item table. -/
theorem deleteItems_items (L : List Int) (st : State) (hids : IdsDistinct st.items) :
    (deleteItems st L).items =
      st.items.filter (fun r => !(L.contains r.id && goodDataFile r)) := by
  induction L generalizing st with
  | nil =>
    unfold deleteItems
    symm
    apply List.filter_eq_self.mpr
    intro x hx
    simp [List.contains]
  | cons i rest ih =>
    show (deleteItems (deleteItem st i) rest).items = _
    have hids2 : IdsDistinct (deleteItem st i).items := by
      rw [deleteItem_items st i hids]
      exact IdsDistinct_filter _ _ hids
    rw [ih (deleteItem st i) hids2, deleteItem_items st i hids, List.filter_filter]
    apply List.filter_congr
    intro x hx
    simp only [List.contains_cons]
    cases hg : (x.id == i) <;> cases hgo : goodDataFile x <;>
      cases hr : rest.contains x.id <;> simp [hg, hgo, hr]

/-- Membership of a row's id in the prune list, as a predicate on the
row itself. -/
theorem listItemsToDelete_contains (st : State) (hids : IdsDistinct st.items)
    {x : ItemRow} (hx : x ∈ st.items) :
    (listItemsToDelete st).contains x.id =
      (x.accountId == st.account.id &&
        (x.originalId != "" && !((st.filterIds.getD []).contains x.originalId))) := by
  unfold listItemsToDelete
  rcases hb : (x.accountId == st.account.id &&
      (x.originalId != "" && !((st.filterIds.getD []).contains x.originalId))) with _ | _
  · -- not listed: no element of the map equals x.id
    rw [Bool.eq_false_iff]
    intro hc
    rw [List.contains_eq_any_beq] at hc
    rcases List.any_eq_true.mp hc with ⟨idv, hidv, hbeq⟩
    rcases List.mem_map.mp hidv with ⟨y, hy, rfl⟩
    have hy2 := List.mem_filter.mp hy
    have hy3 := List.mem_filter.mp hy2.1
    have hxy : y = x := idsDistinct_unique hids hy3.1 hx (beq_iff_eq.mp hbeq).symm
    subst hxy
    rw [hy3.2, hy2.2] at hb
    cases hb
  · -- listed
    simp only [Bool.and_eq_true] at hb
    have hmem : x.id ∈ ((st.items.filter (fun r => r.accountId == st.account.id)).filter
        (fun r => r.originalId != "" && !((st.filterIds.getD []).contains r.originalId))).map
        (fun r => r.id) := by
      refine List.mem_map.mpr ⟨x, ?_, rfl⟩
      refine List.mem_filter.mpr ⟨List.mem_filter.mpr ⟨hx, hb.1⟩, ?_⟩
      rw [Bool.and_eq_true]
      exact hb.2
    rw [List.contains_eq_any_beq]
    refine List.any_eq_true.mpr ⟨x.id, hmem, by simp⟩

/-- C3 (amended): after a prune that follows a clean listing (no
checkpoint on the account), the prune succeeds and the surviving item
rows are exactly those NOT matched by `pruneDeletes`: a row is deleted
iff it belongs to the account, has a non-empty original id absent from
the presence filter, AND records a usable (non-null, non-empty) data
file.  Rows with an empty original id are skipped by
`listItemsToDelete`, and rows without a data file survive because
`deleteItem`'s counting query fails on the NULL scan. -/
theorem c3_prune_deletes_characterization (st : State) (hids : IdsDistinct st.items)
    (hck : st.account.checkpoint = []) :
    doPrune st =
      ((deleteItems st (listItemsToDelete st)), Except.ok ()) ∧
    (doPrune st).1.items = st.items.filter (fun r => !(pruneDeletes st r)) := by
  have hp : doPrune st = ((deleteItems st (listItemsToDelete st)), Except.ok ()) := by
    unfold doPrune
    rw [hck]
    simp
  refine ⟨hp, ?_⟩
  rw [hp]
  simp only []
  rw [deleteItems_items _ st hids]
  apply List.filter_congr
  intro x hx
  rw [listItemsToDelete_contains st hids hx]
  unfold pruneDeletes
  cases h1 : (x.accountId == st.account.id) <;> cases h2 : (x.originalId != "") <;>
    cases h3 : ((st.filterIds.getD []).contains x.originalId) <;>
    cases h4 : goodDataFile x <;> simp [h1, h2, h3, h4]

/-- Witness for the amended C3 at the concrete post-listing state with
an empty presence filter. -/
theorem c3_prune_deletes_witness :
    doPrune stC3 =
      ((deleteItems stC3 (listItemsToDelete stC3)), Except.ok ()) ∧
    (doPrune stC3).1.items = stC3.items.filter (fun r => !(pruneDeletes stC3 r)) :=
  c3_prune_deletes_characterization stC3 (by unfold IdsDistinct; decide) (by decide)

/-- C10: an item row whose original id is the empty string is never
deleted by the prune engine: whatever the presence filter holds, every
empty-original-id row present before `doPrune` is still present after
it (`listItemsToDelete` skips such rows). -/
theorem c10_prune_never_deletes_empty_original_id (st : State) (R : ItemRow)
    (hids : IdsDistinct st.items) (hmem : R ∈ st.items)
    (hempty : R.originalId = "") :
    R ∈ (doPrune st).1.items := by
  unfold doPrune
  split
  · exact hmem
  · rw [deleteItems_items _ st hids]
    refine List.mem_filter.mpr ⟨hmem, ?_⟩
    rw [listItemsToDelete_contains st hids hmem]
    simp [hempty]

/-- Witness for C10: the concrete empty-original-id row survives the
concrete prune run. -/
theorem c10_prune_empty_original_id_witness :
    rowEmptyId ∈ (doPrune stC3).1.items :=
  c10_prune_never_deletes_empty_original_id stC3 rowEmptyId
    (by unfold IdsDistinct; decide) (by decide) rfl

theorem storeItemFromService_account (hash : List Nat → String) (st : State)
    (it : Item) (ts : Int) (po : ProcessingOptions) :
    (storeItemFromService hash st it ts po).1.account = st.account := by
  simp only [storeItemFromService]
  split
  · rfl
  next st1 oid b heq =>
    have hst1 : st1.account = st.account := by
      by_cases hsm : po.merge.softMerge = true
      · rw [if_pos hsm] at heq
        exact softMerge_account st it po heq
      · rw [if_neg hsm] at heq
        cases heq
        rfl
    split
    · rw [storeItemRest_account]
      exact hst1
    next ir hirload =>
      split
      · exact hst1
      · split
        · split
          · exact hst1
          next origFile hdf =>
            have hrest := storeItemRest_account hash
              (renameFileIfExists st1 origFile (origFile ++ ".bak")) it ir oid
              (it.dataBytes.isSome && (ir.dataFile.isNone || !b || po.merge.preferNewDataFile))
              ts b po
            split
            next st3 rid heq3 =>
              rw [heq3] at hrest
              simp only at hrest
              show (removeFileIfExists st3 (origFile ++ ".bak")).account = st.account
              rw [show (removeFileIfExists st3 (origFile ++ ".bak")).account = st3.account from rfl,
                hrest, renameFileIfExists_account]
              exact hst1
            next st3 e heq3 =>
              rw [heq3] at hrest
              simp only at hrest
              rw [renameFileIfExists_account, hrest, renameFileIfExists_account]
              exact hst1
        · rw [storeItemRest_account]
          exact hst1

/-- Inserting into the presence filter changes only the filter. -/
theorem insertFilterId_skeleton (st : State) (sid : String) :
    (insertFilterId st sid).items = st.items ∧
    (insertFilterId st sid).account = st.account ∧
    (insertFilterId st sid).now = st.now := by
  unfold insertFilterId
  cases st.filterIds <;> exact ⟨rfl, rfl, rfl⟩

/-- Processing one node never writes the account row. -/
theorem processSingleItemGraphNode_account (hash : List Nat → String) (st : State)
    (it : Item) (po : ProcessingOptions) :
    (processSingleItemGraphNode hash st it po).1.account = st.account := by
  simp only [processSingleItemGraphNode]
  have hst0 : (if (it.id != "") = true then insertFilterId st it.id else st).account = st.account := by
    split
    · exact (insertFilterId_skeleton st it.id).2.1
    · rfl
  split
  next st1 e heq =>
    have := storeItemFromService_account hash
      (if (it.id != "") = true then insertFilterId st it.id else st) it
      (if (it.id != "") = true then insertFilterId st it.id else st).now po
    rw [heq] at this
    simp only at this
    rw [this]
    exact hst0
  next st1 rowId heq =>
    have hacc := storeItemFromService_account hash
      (if (it.id != "") = true then insertFilterId st it.id else st) it
      (if (it.id != "") = true then insertFilterId st it.id else st).now po
    rw [heq] at hacc
    simp only at hacc
    split
    · rw [show ({ st1 with runLastRowId := rowId, runLastTs := some it.timestamp } : State).account
          = st1.account from rfl, hacc]
      exact hst0
    · rw [hacc]
      exact hst0

/-- The worker loop never writes the account row. -/
theorem processItems_account (hash : List Nat → String) (its : List Item) (st : State)
    (po : ProcessingOptions) :
    (processItems hash st its po).account = st.account := by
  induction its generalizing st with
  | nil => rfl
  | cons it rest ih =>
    show (processItems hash (processSingleItemGraphNode hash st it po).1 rest po).account = _
    rw [ih (processSingleItemGraphNode hash st it po).1,
      processSingleItemGraphNode_account]

/-- Item deletion never writes the account row. -/
theorem deleteItem_account (st : State) (i : Int) :
    (deleteItem st i).account = st.account := by
  simp only [deleteItem, removeFileIfExists]
  repeat' split
  all_goals rfl

/-- The deletion loop never writes the account row. -/
theorem deleteItems_account (L : List Int) (st : State) :
    (deleteItems st L).account = st.account := by
  induction L generalizing st with
  | nil => rfl
  | cons i rest ih =>
    show (deleteItems (deleteItem st i) rest).account = _
    rw [ih (deleteItem st i), deleteItem_account]

/-- The prune engine never writes the account row. -/
theorem doPrune_account (st : State) :
    (doPrune st).1.account = st.account := by
  unfold doPrune
  split
  · rfl
  · exact deleteItems_account _ st

/-- `successCleanup` clears the checkpoint column. -/
theorem successCleanup_checkpoint (st : State) :
    (successCleanup st).account.checkpoint = [] := by
  unfold successCleanup
  split <;> rfl

/-- `successCleanup` either keeps `last_item_id` or advances it to the
positive row id tracked during the run. -/
theorem successCleanup_lastItemId (st : State) :
    (successCleanup st).account.lastItemId = st.account.lastItemId ∨
    (0 < st.runLastRowId ∧ (successCleanup st).account.lastItemId = some st.runLastRowId) := by
  unfold successCleanup
  split
  next h => exact Or.inr ⟨by exact_mod_cast h, rfl⟩
  · exact Or.inl rfl

/-- C7: for a `GetAll` operation, if the adapter's listing returns an
error the operation returns without clearing the account's checkpoint
and without touching `last_item_id`; when the listing succeeds (the
workers drain the channel without a listing error), the checkpoint is
cleared, and `last_item_id` is either unchanged or advanced to the
(positive) row id of an item stored this run — and this holds whether
or not a prune follows. -/
theorem c7_checkpoint_cleared_only_on_clean_success (hash : List Nat → String) (st : State) (po : ProcessingOptions)
    (listing : Option (List Nat) → ListingOutcome) :
    ((listing (prepareCheckpoint st.account po.timeframe)).err ≠ none →
       (GetAll hash st po listing).1.account.checkpoint = st.account.checkpoint ∧
       (GetAll hash st po listing).1.account.lastItemId = st.account.lastItemId) ∧
    ((listing (prepareCheckpoint st.account po.timeframe)).err = none →
       (GetAll hash st po listing).1.account.checkpoint = [] ∧
       ((GetAll hash st po listing).1.account.lastItemId = st.account.lastItemId ∨
        ∃ n : Int, 0 < n ∧ (GetAll hash st po listing).1.account.lastItemId = some n)) := by
  simp only [GetAll]
  have hst0acc : (if po.prune = true then { st with filterIds := some [] } else st).account
      = st.account := by
    split <;> rfl
  set st0 := if po.prune = true then { st with filterIds := some [] } else st with hst0
  set out := listing (prepareCheckpoint st.account po.timeframe) with hout
  set st1 := processItems hash st0 out.items po with hst1
  have hacc1 : st1.account = st.account := by
    rw [hst1, processItems_account, hst0acc]
  have hsc := successCleanup_lastItemId st1
  constructor
  · intro herr
    rcases ho : out.err with _ | e
    · exact absurd ho herr
    · simp only []
      rw [hacc1]
      exact ⟨rfl, rfl⟩
  · intro hok
    rw [hok]
    simp only []
    have hckpt : (successCleanup st1).account.checkpoint = [] := successCleanup_checkpoint st1
    have hlast : (successCleanup st1).account.lastItemId = st.account.lastItemId ∨
        ∃ n : Int, 0 < n ∧ (successCleanup st1).account.lastItemId = some n := by
      rcases hsc with h | ⟨hp, h⟩
      · exact Or.inl (h.trans (congrArg Account.lastItemId hacc1))
      · exact Or.inr ⟨st1.runLastRowId, hp, h⟩
    split
    · split
      next st3 u heq3 =>
        have h3 := doPrune_account (successCleanup st1)
        rw [heq3] at h3
        simp only at h3
        rw [h3]
        exact ⟨hckpt, hlast⟩
      next st3 e heq3 =>
        have h3 := doPrune_account (successCleanup st1)
        rw [heq3] at h3
        simp only at h3
        rw [h3]
        exact ⟨hckpt, hlast⟩
    · exact ⟨hckpt, hlast⟩

/-- Witness for C7 at a concrete account with checkpoint bytes 9,9,9
and a listing that fails: checkpoint and last-item pointer keep their
values. -/
theorem c7_checkpoint_cleared_witness :
    (GetAll hashDemo stC4 defaultProcessingOptions
      (fun _ => { items := [], err := some ("boom") })).1.account.checkpoint =
      stC4.account.checkpoint ∧
    (GetAll hashDemo stC4 defaultProcessingOptions
      (fun _ => { items := [], err := some ("boom") })).1.account.lastItemId =
      stC4.account.lastItemId :=
  (c7_checkpoint_cleared_only_on_clean_success hashDemo stC4 defaultProcessingOptions
    (fun _ => { items := [], err := some ("boom") })).1 (by decide)

/-- More than one soft-merge candidate makes `softMerge` fail with the
ambiguity error. -/
theorem softMerge_ambiguous (st : State) (it : Item) (po : ProcessingOptions)
    (hamb : 2 ≤ (softMergeCandidates st it).length) :
    softMerge st it po =
      .error ("ambiguous match with existing items - unable to merge, skipping item with ID: "
        ++ it.id) := by
  unfold softMerge
  rcases hc : softMergeCandidates st it with _ | ⟨r, _ | ⟨r2, t⟩⟩
  · rw [hc] at hamb
    simp at hamb
  · rw [hc] at hamb
    simp at hamb
  · rfl

/-- The presence filter does not influence the soft-merge candidate
query. -/
theorem softMergeCandidates_insertFilterId (st : State) (sid : String) (it : Item) :
    softMergeCandidates (insertFilterId st sid) it = softMergeCandidates st it := by
  unfold softMergeCandidates insertFilterId
  cases st.filterIds <;> rfl

/-- C8: when soft merging is enabled and more than one existing row
matches the incoming item, the item is skipped with the logged
ambiguity reason: `storeItemFromService` returns the unchanged state
with the error, the node processor leaves the item table untouched
(only the presence filter is marked), and the worker loop carries on
with the remaining items. -/
theorem c8_ambiguous_soft_merge_skips_item_and_continues
    (hash : List Nat → String) (st : State) (it : Item) (ts : Int)
    (po : ProcessingOptions) (rest : List Item)
    (hsm : po.merge.softMerge = true)
    (hamb : 2 ≤ (softMergeCandidates st it).length) :
    storeItemFromService hash st it ts po =
      (st, .error ("soft merge: " ++
        ("ambiguous match with existing items - unable to merge, skipping item with ID: " ++ it.id))) ∧
    (processSingleItemGraphNode hash st it po).1.items = st.items ∧
    isErr (processSingleItemGraphNode hash st it po).2 = true ∧
    processItems hash st (it :: rest) po =
      processItems hash (if (it.id != "") = true then insertFilterId st it.id else st) rest po := by
  have hmsg : ∀ st' : State, 2 ≤ (softMergeCandidates st' it).length → ∀ ts' : Int,
      storeItemFromService hash st' it ts' po =
      (st', .error ("soft merge: " ++
        ("ambiguous match with existing items - unable to merge, skipping item with ID: " ++ it.id))) := by
    intro st' hamb' ts'
    simp only [storeItemFromService]
    rw [if_pos hsm, softMerge_ambiguous st' it po hamb']
  have hst0amb : 2 ≤ (softMergeCandidates
      (if (it.id != "") = true then insertFilterId st it.id else st) it).length := by
    split
    · rw [softMergeCandidates_insertFilterId]
      exact hamb
    · exact hamb
  have hnode : processSingleItemGraphNode hash st it po =
      ((if (it.id != "") = true then insertFilterId st it.id else st),
        .error ("soft merge: " ++
          ("ambiguous match with existing items - unable to merge, skipping item with ID: " ++ it.id))) := by
    simp only [processSingleItemGraphNode]
    rw [hmsg _ hst0amb _]
  refine ⟨hmsg st hamb ts, ?_, ?_, ?_⟩
  · rw [hnode]
    simp only []
    split
    · exact (insertFilterId_skeleton st it.id).1
    · rfl
  · rw [hnode]
    rfl
  · show processItems hash (processSingleItemGraphNode hash st it po).1 rest po = _
    rw [hnode]

/-- Witness for C8 at the concrete ambiguous pair of rows `P`/`Q`
matching the incoming item `R` by timestamp and text. -/
theorem c8_ambiguous_soft_merge_witness :
    (processSingleItemGraphNode hashDemo stC8 itC8 poC8).1.items = stC8.items ∧
    isErr (processSingleItemGraphNode hashDemo stC8 itC8 poC8).2 = true :=
  ⟨(c8_ambiguous_soft_merge_skips_item_and_continues hashDemo stC8 itC8 50 poC8 [itY]
      rfl (by decide)).2.1,
   (c8_ambiguous_soft_merge_skips_item_and_continues hashDemo stC8 itC8 50 poC8 [itY]
      rfl (by decide)).2.2.1⟩
